import Mathlib

/-!
Verification development for the food-factory production scheduler.

Shallow embedding of the production scheduling core:
  * `production/task.py`    — `Task`, `TaskType`, `TaskStatus`
  * `items/item.py`         — `Item` and its stage pipeline
  * `world/tile.py`         — `Tile`
  * `world/department.py`   — `Department` and its buffer/workstation queries
  * `production/task_manager.py` — `TaskManager` (state `TMState` plus the
    operations `get_task_for_worker`, `complete_task`, `fail_task`,
    `on_item_arrived`, `_try_create_process_task`, `_try_create_carry_task`,
    `tick`)
  * `workers/worker.py`     — the worker state machine
  * `workers/worker_manager.py` — hire/fire
  * `workers/pathfinder.py` — the A* grid pathfinder

Modelling conventions, used consistently below:
  * Python `uuid4` string identifiers are modelled as `Nat` identifiers; the
    only property the code relies on is their freshness/uniqueness, which the
    model realises with a `next_task_id` counter.
  * The Python objects are shared by reference (`_tasks` and `_pending` hold
    the same `Task` objects; department buffers hold the same `Item` objects
    that `_find_item` returns).  The model keeps one canonical store for each
    kind of object and a mutation of a shared object is an update keyed by its
    identifier.  `_pending` is therefore a list of task ids, and the Python
    membership tests on whole dataclass values (`task not in self._pending`,
    `item not in self.item_buffer`) coincide with the modelled tests because
    identifiers are unique.
  * The only floating point values in the modelled core are integral
    (`WORKER_WORK_DURATION = 4.0`, tile centres `col*48 + 24`, and the A*
    `g`/`f` scores, which are sums of `1.0`s and integer Manhattan
    distances); they are modelled as integers.
-/

namespace FoodFactory

/-- settings.py: `STAGE_ORDER`. -/
def STAGE_ORDER : List String :=
  ["receiving", "prep", "cooking", "qc", "packaging", "dispatch"]

/-- settings.py: `TILE_SIZE = 48`. -/
def TILE_SIZE : Int := 48

/-- settings.py: `WORKER_WORK_DURATION = 4.0` (an integral float). -/
def WORKER_WORK_DURATION : Int := 4

/-- world/tilemap.py `tile_center_world`: `(col*TILE_SIZE + TILE_SIZE//2, row*...)`. -/
def tile_center_world (col row : Int) : Int × Int :=
  (col * TILE_SIZE + TILE_SIZE / 2, row * TILE_SIZE + TILE_SIZE / 2)

/-- production/task.py: `TaskType`. -/
inductive TaskType where
  | PROCESS
  | CARRY
deriving DecidableEq

/-- production/task.py: `TaskStatus`. -/
inductive TaskStatus where
  | QUEUED
  | ASSIGNED
  | IN_PROGRESS
  | COMPLETE
  | FAILED
deriving DecidableEq

/-- production/task.py: the `Task` dataclass (uuid ids modelled as `Nat`). -/
structure Task where
  task_id : Nat
  task_type : TaskType := TaskType.PROCESS
  status : TaskStatus := TaskStatus.QUEUED
  item_id : Nat := 0
  dept : String := ""
  target_col : Int := 0
  target_row : Int := 0
  deliver_col : Int := 0
  deliver_row : Int := 0
  deliver_dept : String := ""
  assigned_worker_id : Option Nat := none
  work_duration : Int := WORKER_WORK_DURATION
  priority : Int := 0
deriving DecidableEq

/-- production/task.py `Task.assign`. -/
def Task.assign (t : Task) (worker_id : Nat) : Task :=
  { t with assigned_worker_id := some worker_id, status := TaskStatus.ASSIGNED }

/-- production/task.py `Task.start`. -/
def Task.start (t : Task) : Task :=
  { t with status := TaskStatus.IN_PROGRESS }

/-- production/task.py `Task.complete` (note: it does not touch `assigned_worker_id`). -/
def Task.complete (t : Task) : Task :=
  { t with status := TaskStatus.COMPLETE }

/-- production/task.py `Task.fail`. -/
def Task.fail (t : Task) : Task :=
  { t with status := TaskStatus.FAILED, assigned_worker_id := none }

/-- items/item.py: the `Item` dataclass.  `world_x`/`world_y` are only ever
assigned integral tile-centre values in the modelled core, so they are `Int`. -/
structure Item where
  item_id : Nat
  meal_name : String := ""
  order_id : Nat := 0
  stage : String := "receiving"
  carrier_id : Option Nat := none
  world_x : Int := 0
  world_y : Int := 0
  being_processed : Bool := false
  processed : Bool := false
  ready_to_carry : Bool := false
deriving DecidableEq

/-- items/item.py `Item.next_stage`: the next department name, `"delivered"`
after the last stage, `none` for a delivered or unknown stage (the Python
`except ValueError` branch). -/
def Item.next_stage (i : Item) : Option String :=
  if i.stage = "delivered" then none
  else
    match STAGE_ORDER.indexOf? i.stage with
    | some idx =>
        if idx + 1 < STAGE_ORDER.length then STAGE_ORDER.get? (idx + 1)
        else some "delivered"
    | none => none

/-- items/item.py `Item.advance_stage`. -/
def Item.advance_stage (i : Item) : Item :=
  match i.next_stage with
  | some nxt =>
      { i with stage := nxt, being_processed := false, processed := false,
               ready_to_carry := false, carrier_id := none }
  | none => i

/-- world/tile.py: the `Tile` dataclass (fields used by the scheduling core). -/
structure Tile where
  col : Int
  row : Int
  walkable : Bool := true
  dept : Option String := none
  is_workstation : Bool := false
  is_drop_point : Bool := false
  occupied_by : Option Nat := none
deriving DecidableEq

/-- world/department.py: the `Department` dataclass.  The Python department
holds references to the tilemap's `Tile` objects; the model stores the tile
values here and a tile-occupancy mutation updates every stored tile with the
mutated tile's coordinates (reference aliasing by coordinates). -/
structure Department where
  name : String
  display_name : String := ""
  zone_col : Int := 0
  zone_row : Int := 0
  zone_w : Int := 0
  zone_h : Int := 0
  workstation_tiles : List Tile := []
  drop_point_tiles : List Tile := []
  item_buffer : List Item := []
  worker_count : Int := 0
  max_workers : Int := 8
  items_processed : Int := 0
deriving DecidableEq

/-- world/department.py `add_item`: append unless already present. -/
def Department.add_item (d : Department) (item : Item) : Department :=
  if item ∈ d.item_buffer then d
  else { d with item_buffer := d.item_buffer ++ [item] }

/-- world/department.py `remove_item`: remove the first occurrence if present. -/
def Department.remove_item (d : Department) (item : Item) : Department :=
  if item ∈ d.item_buffer then { d with item_buffer := d.item_buffer.erase item }
  else d

/-- world/department.py `get_pending_item`: first buffered item neither being
processed nor processed. -/
def Department.get_pending_item (d : Department) : Option Item :=
  d.item_buffer.find? (fun i => !i.being_processed && !i.processed)

/-- world/department.py `get_ready_to_carry_item`. -/
def Department.get_ready_to_carry_item (d : Department) : Option Item :=
  d.item_buffer.find? (fun i => i.ready_to_carry && i.carrier_id.isNone)

/-- world/department.py `get_free_workstation`: first workstation tile with no
occupant. -/
def Department.get_free_workstation (d : Department) : Option Tile :=
  d.workstation_tiles.find? (fun t => t.occupied_by.isNone)

/-- world/department.py `get_drop_point`: the first drop point tile, if any. -/
def Department.get_drop_point (d : Department) : Option Tile :=
  d.drop_point_tiles.head?

/-- production/task_manager.py: the `TaskManager` state.  `tasks` is the
`_tasks` dict (insertion order, keyed by `task_id`); `pending` is `_pending`
as a list of task ids; `departments` is `tilemap.departments` (insertion
order, keyed by `name`); `next_task_id` supplies fresh uuid-like ids;
`delivered` records the item ids of published `ITEM_DELIVERED` events. -/
structure TMState where
  tasks : List Task := []
  pending : List Nat := []
  departments : List Department := []
  next_task_id : Nat := 0
  delivered : List Nat := []
deriving DecidableEq

/-- Lookup `self._tasks.get(task_id)`. -/
def findTask (s : TMState) (task_id : Nat) : Option Task :=
  s.tasks.find? (fun t => t.task_id == task_id)

/-- Mutation of the shared `Task` object with the given id. -/
def updateTask (s : TMState) (task_id : Nat) (f : Task → Task) : TMState :=
  { s with tasks := s.tasks.map (fun t => if t.task_id == task_id then f t else t) }

/-- production/task_manager.py `_find_item`: scan every department buffer. -/
def findItem (s : TMState) (item_id : Nat) : Option Item :=
  ((s.departments.map Department.item_buffer).flatten).find? (fun i => i.item_id == item_id)

/-- Mutation of the shared `Item` object with the given id, wherever buffered. -/
def updateItem (s : TMState) (item_id : Nat) (f : Item → Item) : TMState :=
  { s with departments := s.departments.map (fun d =>
      { d with item_buffer := d.item_buffer.map (fun i =>
          if i.item_id == item_id then f i else i) }) }

/-- Lookup `self.departments.get(name)`. -/
def getDept (s : TMState) (name : String) : Option Department :=
  s.departments.find? (fun d => d.name == name)

/-- Mutation of the shared `Department` object with the given name. -/
def updateDept (s : TMState) (name : String) (f : Department → Department) : TMState :=
  { s with departments := s.departments.map (fun d => if d.name == name then f d else d) }

/-- production/task_manager.py `get_task_for_worker` (lines 55-65): scan
`_pending` in list order, skip non-QUEUED tasks, return the first task of the
worker's home department.  No task state is mutated. -/
def get_task_for_worker (s : TMState) (home_dept : String) : Option Task :=
  (s.pending.filterMap (findTask s)).find?
    (fun t => t.status == TaskStatus.QUEUED && t.dept == home_dept)

/-- production/task_manager.py `on_item_picked_up`. -/
def on_item_picked_up (s : TMState) (item_id : Nat) (worker_id : Nat) : TMState :=
  match findItem s item_id with
  | some _ => updateItem s item_id (fun i => { i with carrier_id := some worker_id })
  | none => s

/-- production/task_manager.py `_try_create_process_task` (lines 135-154).
The Python function receives the department object; every call site passes
`self.departments` entries, so the model receives the department name and
re-fetches it. -/
def tryCreateProcessTask (s : TMState) (item : Item) (deptName : String) : TMState :=
  if item.being_processed || item.processed then s
  else
    match getDept s deptName with
    | none => s
    | some dept =>
      match dept.get_free_workstation with
      | none => s
      | some workstation =>
        let s' := updateItem s item.item_id (fun i => { i with being_processed := true })
        let task : Task :=
          { task_id := s'.next_task_id, task_type := TaskType.PROCESS,
            item_id := item.item_id, dept := dept.name,
            target_col := workstation.col, target_row := workstation.row,
            work_duration := WORKER_WORK_DURATION }
        { s' with tasks := s'.tasks ++ [task], pending := s'.pending ++ [task.task_id],
                  next_task_id := s'.next_task_id + 1 }

/-- production/task_manager.py `_try_create_carry_task` (lines 156-193). -/
def tryCreateCarryTask (s : TMState) (item : Item) : TMState :=
  match getDept s item.stage with
  | none => s
  | some current_dept =>
    match item.next_stage with
    | none => s
    | some next_stage =>
      match getDept s next_stage with
      | none => s
      | some next_dept =>
        let pick_up_tile : Option Tile :=
          if 1 < current_dept.drop_point_tiles.length then
            current_dept.drop_point_tiles.getLast?
          else current_dept.get_drop_point
        let deliver_tile : Option Tile :=
          if next_dept.drop_point_tiles.isEmpty then next_dept.get_drop_point
          else next_dept.drop_point_tiles.head?
        match pick_up_tile, deliver_tile with
        | some put, some dt =>
          let s' := updateItem s item.item_id
            (fun i => { i with ready_to_carry := true, carrier_id := none })
          let task : Task :=
            { task_id := s'.next_task_id, task_type := TaskType.CARRY,
              item_id := item.item_id, dept := item.stage,
              target_col := put.col, target_row := put.row,
              deliver_col := dt.col, deliver_row := dt.row,
              deliver_dept := next_stage }
          { s' with tasks := s'.tasks ++ [task], pending := s'.pending ++ [task.task_id],
                    next_task_id := s'.next_task_id + 1 }
        | _, _ => s

/-- production/task_manager.py `on_item_arrived` (lines 44-49). -/
def on_item_arrived (s : TMState) (item : Item) : TMState :=
  match getDept s item.stage with
  | none => s
  | some dept =>
    let s' := updateDept s dept.name (fun d => d.add_item item)
    tryCreateProcessTask s' item dept.name

/-- production/task_manager.py `complete_task` (lines 73-110). -/
def complete_task (s : TMState) (task_id : Nat) : TMState :=
  match findTask s task_id with
  | none => s
  | some task =>
    let s1 := updateTask s task_id Task.complete
    let s2 := { s1 with pending := s1.pending.filter (fun id => id != task_id) }
    match findItem s2 task.item_id with
    | none => s2
    | some item =>
      match task.task_type with
      | TaskType.PROCESS =>
        let s3 := updateItem s2 item.item_id (fun i =>
          { i with being_processed := false, processed := true, ready_to_carry := true })
        let s4 :=
          match getDept s3 item.stage with
          | some dept =>
              updateDept s3 dept.name
                (fun d => { d with items_processed := d.items_processed + 1 })
          | none => s3
        let item' :=
          { item with being_processed := false, processed := true, ready_to_carry := true }
        tryCreateCarryTask s4 item'
      | TaskType.CARRY =>
        let s3 :=
          match getDept s2 item.stage with
          | some old_dept => updateDept s2 old_dept.name (fun d => d.remove_item item)
          | none => s2
        let item' := item.advance_stage
        match getDept s3 item'.stage with
        | some new_dept =>
          let item2 :=
            match new_dept.get_drop_point with
            | some dp =>
                { item' with world_x := (tile_center_world dp.col dp.row).1,
                             world_y := (tile_center_world dp.col dp.row).2 }
            | none => item'
          on_item_arrived s3 item2
        | none =>
          { s3 with delivered := s3.delivered ++ [item'.item_id] }

/-- production/task_manager.py `fail_task` (lines 112-129). -/
def fail_task (s : TMState) (task_id : Nat) : TMState :=
  match findTask s task_id with
  | none => s
  | some task =>
    let s1 := updateTask s task_id Task.fail
    let s2 :=
      match findItem s1 task.item_id with
      | some _ =>
        match task.task_type with
        | TaskType.PROCESS =>
            updateItem s1 task.item_id (fun i => { i with being_processed := false })
        | TaskType.CARRY =>
            updateItem s1 task.item_id
              (fun i => { i with ready_to_carry := true, carrier_id := none })
      | none => s1
    let s3 := updateTask s2 task_id
      (fun t => { t with status := TaskStatus.QUEUED, assigned_worker_id := none })
    if task_id ∈ s3.pending then s3 else { s3 with pending := s3.pending ++ [task_id] }

/-- production/task_manager.py `tick` (lines 199-220), body for one department. -/
def tickDept (s : TMState) (name : String) : TMState :=
  let s1 :=
    match getDept s name with
    | none => s
    | some dept =>
      match dept.get_pending_item with
      | none => s
      | some pending_item =>
        let already_queued := (s.pending.filterMap (findTask s)).any
          (fun t => t.item_id == pending_item.item_id && t.status == TaskStatus.QUEUED)
        if already_queued then s else tryCreateProcessTask s pending_item name
  match getDept s1 name with
  | none => s1
  | some dept =>
    match dept.get_ready_to_carry_item with
    | none => s1
    | some carry_item =>
      let already_queued := (s1.pending.filterMap (findTask s1)).any
        (fun t => t.item_id == carry_item.item_id && t.task_type == TaskType.CARRY
                  && t.status == TaskStatus.QUEUED)
      if already_queued then s1 else tryCreateCarryTask s1 carry_item

/-- production/task_manager.py `tick`: iterate the departments in order. -/
def TMState.tick (s : TMState) : TMState :=
  (s.departments.map Department.name).foldl tickDept s

/-!
workers/pathfinder.py — the A* grid pathfinder.

The Python `heapq` holds `(f, (col, row))` tuples and always pops the
lexicographically least one; the model keeps the heap as a plain list and
pops its least entry under the same order, which yields the identical pop
sequence (two distinct pushes of one node always carry distinct `f` values,
so ties only arise between entries that are equal as tuples).

Python's `while` loops have no built-in bound, so the loops are modelled with
an explicit fuel parameter; `none` means the fuel ran out before the loop
finished, i.e. the fuel-indexed family of runs witnesses divergence when it is
`none` for every fuel.  All `g`/`f` scores are integral floats, modelled as
`Nat`.
-/

/-- Grid lookup `walkable[r][c]` for nonnegative indices (every Python access
is guarded by `0 <= r < rows and 0 <= c < cols`, so only in-range nonnegative
indices are ever read). -/
def gridAt (walkable : List (List Bool)) (c r : Int) : Bool :=
  if 0 ≤ r ∧ 0 ≤ c then (walkable.getD r.toNat []).getD c.toNat false else false

/-- workers/pathfinder.py `_heuristic`: Manhattan distance. -/
def heuristic (a b : Int × Int) : Nat :=
  (a.1 - b.1).natAbs + (a.2 - b.2).natAbs

/-- workers/pathfinder.py `_neighbors`: the in-bounds 4-neighbours of a cell,
in the fixed order up, down, left, right. -/
def neighborsOf (c r : Int) (cols rows : Int) : List (Int × Int) :=
  ([((0 : Int), (-1 : Int)), (0, 1), (-1, 0), (1, 0)]).filterMap (fun d =>
    let nc := c + d.1
    let nr := r + d.2
    if 0 ≤ nc ∧ nc < cols ∧ 0 ≤ nr ∧ nr < rows then some (nc, nr) else none)

/-- Python tuple order on heap entries `(f, (col, row))`. -/
def entryLt (a b : Nat × Int × Int) : Bool :=
  a.1 < b.1 || (a.1 == b.1 && (a.2.1 < b.2.1 || (a.2.1 == b.2.1 && a.2.2 < b.2.2)))

/-- Least entry of the heap list under `entryLt`. -/
def minEntry : List (Nat × Int × Int) → Option (Nat × Int × Int)
  | [] => none
  | e :: rest =>
    match minEntry rest with
    | none => some e
    | some m => if entryLt m e then some m else some e

/-- `heapq.heappop`: remove and return the least entry. -/
def popMin (l : List (Nat × Int × Int)) : Option ((Nat × Int × Int) × List (Nat × Int × Int)) :=
  match minEntry l with
  | none => none
  | some m => some (m, l.erase m)

/-- Association-list lookup for the `came_from` / `g_score` dicts. -/
def lookupA {α : Type} (l : List ((Int × Int) × α)) (k : Int × Int) : Option α :=
  (l.find? (fun p => p.1 == k)).map Prod.snd

/-- Association-list key update for the `came_from` / `g_score` dicts. -/
def insertA {α : Type} (l : List ((Int × Int) × α)) (k : Int × Int) (v : α) :
    List ((Int × Int) × α) :=
  if (l.find? (fun p => p.1 == k)).isSome then
    l.map (fun p => if p.1 == k then (k, v) else p)
  else l ++ [(k, v)]

/-- The A* loop state: the open heap, `came_from`, and `g_score`. -/
structure AStarState where
  open_set : List (Nat × Int × Int)
  came_from : List ((Int × Int) × (Int × Int))
  g_score : List ((Int × Int) × Nat)

/-- workers/pathfinder.py `_reconstruct`: walk the `came_from` chain from the
goal back to the start and reverse.  The Python `while current in came_from`
loop is fuel-indexed; in every run the chain is acyclic and a fuel of
`came_from.length + 1` completes it. -/
def reconstructN : Nat → List ((Int × Int) × (Int × Int)) → (Int × Int) → List (Int × Int)
  | 0, _, _ => []
  | fuel + 1, cf, cur =>
    match lookupA cf cur with
    | none => []
    | some prev => reconstructN fuel cf prev ++ [cur]

/-- Body of lines 57-62 of workers/pathfinder.py for one already-walkable
neighbour `n` of `current`: relax the edge, updating `came_from`, `g_score`
and pushing onto the heap when the tentative score improves.  `g_score[current]`
is always present for a popped node; the unreachable missing case defaults
to `0`. -/
def relaxNeighbor (goal current : Int × Int) (st : AStarState) (n : Int × Int) : AStarState :=
  let gcur := (lookupA st.g_score current).getD 0
  let tentative := gcur + 1
  let better :=
    match lookupA st.g_score n with
    | none => true
    | some g => tentative < g
  if better then
    { open_set := st.open_set ++ [(tentative + heuristic n goal, n)],
      came_from := insertA st.came_from n current,
      g_score := insertA st.g_score n tentative }
  else st

/-- workers/pathfinder.py lines 47-64: the main A* loop, fuel-indexed. -/
def astarLoop (walkable : List (List Bool)) (cols rows : Int) (goal : Int × Int) :
    Nat → AStarState → Option (List (Int × Int))
  | 0, _ => none
  | fuel + 1, st =>
    match popMin st.open_set with
    | none => some []
    | some (e, rest) =>
      let current := e.2
      if current = goal then
        some (reconstructN (st.came_from.length + 1) st.came_from current)
      else
        let st' := (neighborsOf current.1 current.2 cols rows).foldl
          (fun acc n =>
            if gridAt walkable n.1 n.2 then relaxNeighbor goal current acc n else acc)
          { st with open_set := rest }
        astarLoop walkable cols rows goal fuel st'

/-- One `while q` iteration helper of workers/pathfinder.py `_nearest_walkable`
(lines 102-106): enqueue a neighbour unless already visited.  The first
component is the `visited` set (as a list), the second the deque. -/
def enqueueNeighbor (vq : List (Int × Int) × List (Int × Int)) (n : Int × Int) :
    List (Int × Int) × List (Int × Int) :=
  if n ∈ vq.1 then vq else (vq.1 ++ [n], vq.2 ++ [n])

/-- workers/pathfinder.py `_nearest_walkable` BFS loop (lines 98-107),
fuel-indexed: `some (some t)` — found walkable tile `t`; `some none` — the
queue emptied (the Python `return None`); `none` — out of fuel.  Note the
neighbour expansion has no bounds check. -/
def nearestLoop (walkable : List (List Bool)) (rows cols : Int) :
    Nat → List (Int × Int) → List (Int × Int) → Option (Option (Int × Int))
  | 0, _, _ => none
  | fuel + 1, visited, q =>
    match q with
    | [] => some none
    | (c, r) :: rest =>
      if 0 ≤ r ∧ r < rows ∧ 0 ≤ c ∧ c < cols ∧ gridAt walkable c r then some (some (c, r))
      else
        let vq := enqueueNeighbor (enqueueNeighbor (enqueueNeighbor (enqueueNeighbor
          (visited, rest) (c, r - 1)) (c, r + 1)) (c - 1, r)) (c + 1, r)
        nearestLoop walkable rows cols fuel vq.1 vq.2

/-- workers/pathfinder.py `_nearest_walkable` (lines 90-107). -/
def nearestWalkableF (walkable : List (List Bool)) (gc gr : Int) (rows cols : Int)
    (fuel : Nat) : Option (Option (Int × Int)) :=
  nearestLoop walkable rows cols fuel [(gc, gr)] [(gc, gr)]

/-- workers/pathfinder.py `find_path` (lines 14-64), fuel-indexed; `none`
means a loop did not finish within the fuel. -/
def find_pathF (walkable : List (List Bool)) (start goal : Int × Int) (fuel : Nat) :
    Option (List (Int × Int)) :=
  if start = goal then some []
  else
    let rows : Int := (walkable.length : Int)
    let cols : Int := if walkable.length ≠ 0 then ((walkable.headD []).length : Int) else 0
    let goalRes : Option (Option (Int × Int)) :=
      if 0 ≤ goal.2 ∧ goal.2 < rows ∧ 0 ≤ goal.1 ∧ goal.1 < cols ∧
          gridAt walkable goal.1 goal.2 then
        some (some goal)
      else nearestWalkableF walkable goal.1 goal.2 rows cols fuel
    match goalRes with
    | none => none
    | some none => some []
    | some (some g) =>
        astarLoop walkable cols rows g fuel
          { open_set := [(0, start)], came_from := [], g_score := [(start, 0)] }

/-- Canonical fuel: provably enough for the A* loop on any grid (each node's
`g_score` only decreases, so the push count is quadratically bounded). -/
def aStarFuel (walkable : List (List Bool)) : Nat :=
  (walkable.length * (walkable.headD []).length + 3) *
    (walkable.length * (walkable.headD []).length + 3)

/-- workers/pathfinder.py `find_path` with the canonical fuel. -/
def find_path (walkable : List (List Bool)) (start goal : Int × Int) :
    Option (List (Int × Int)) :=
  find_pathF walkable start goal (aStarFuel walkable)

/-!
workers/worker.py — the worker state machine, per-worker view.

`WorkerCore` carries the fields of one `Worker` that the state machine
handlers read and write: `state`, `current_task` and `carried_item_id`.
The handlers below are the source handlers with their two external effects
made explicit: the outcome of a `_navigate_to` call is passed in as a
boolean (the Python condition `path or (col, row) == tile`), and the
notifications sent to the task manager (`complete_task`, `fail_task`,
`on_item_picked_up`) happen on the `TaskManager` side and do not touch the
worker fields modelled here (the full system-level composition is below).
-/

/-- workers/worker.py: `WorkerState`. -/
inductive WorkerState where
  | IDLE
  | MOVING_TO_TASK
  | WORKING
  | MOVING_TO_PICK
  | CARRYING
  | DELIVERING
  | RETURNING
deriving DecidableEq

/-- The per-worker fields driven by the state machine. -/
structure WorkerCore where
  state : WorkerState := WorkerState.IDLE
  current_task : Option Task := none
  carried_item_id : Option Nat := none
deriving DecidableEq

/-- workers/worker.py `_fail_task` (lines 253-259), worker-field part. -/
def failTaskStep (w : WorkerCore) : WorkerCore :=
  { w with current_task := none, carried_item_id := none, state := WorkerState.IDLE }

/-- workers/worker.py `_assign_task` (lines 161-178): record the task, then
move off (or fail immediately when no path was found). -/
def assignTaskStep (w : WorkerCore) (task : Task) (pathFound : Bool) : WorkerCore :=
  let w' := { w with current_task := some task }
  match task.task_type with
  | TaskType.PROCESS =>
      if pathFound then { w' with state := WorkerState.MOVING_TO_TASK } else failTaskStep w'
  | TaskType.CARRY =>
      if pathFound then { w' with state := WorkerState.MOVING_TO_PICK } else failTaskStep w'

/-- workers/worker.py `_on_arrived` (lines 198-228); `pathFound` is the
outcome of the `_navigate_to` call in the `MOVING_TO_PICK` branch. -/
def onArrivedStep (w : WorkerCore) (pathFound : Bool) : WorkerCore :=
  match w.current_task with
  | none => { w with state := WorkerState.IDLE }
  | some task =>
    match w.state with
    | WorkerState.MOVING_TO_TASK => { w with state := WorkerState.WORKING }
    | WorkerState.MOVING_TO_PICK =>
        let w' := { w with carried_item_id := some task.item_id }
        if pathFound then { w' with state := WorkerState.CARRYING } else failTaskStep w'
    | WorkerState.CARRYING => { w with state := WorkerState.DELIVERING }
    | WorkerState.RETURNING => { w with state := WorkerState.IDLE }
    | _ => w

/-- workers/worker.py `_finish_work` (lines 230-235), worker-field part. -/
def finishWorkStep (w : WorkerCore) : WorkerCore :=
  { w with current_task := none, state := WorkerState.IDLE }

/-- workers/worker.py `_finish_deliver` (lines 237-251), worker-field part;
`pathHome` is the condition "home department found, it has a drop point, and
`_navigate_to` it succeeded". -/
def finishDeliverStep (w : WorkerCore) (pathHome : Bool) : WorkerCore :=
  let w' := { w with carried_item_id := none, current_task := none }
  if pathHome then { w' with state := WorkerState.RETURNING }
  else { w' with state := WorkerState.IDLE }

/-- The per-worker step relation: each constructor is one handler invocation,
guarded exactly as the per-frame dispatch table of `Worker.update` fires it
(`_on_arrived` runs from `_update_moving`, i.e. only in the four moving
states; `_update_idle` only claims tasks the scheduler returned, which are
QUEUED by the `get_task_for_worker` filter). -/
inductive WStep : WorkerCore → WorkerCore → Prop
  | idleClaim {w : WorkerCore} (task : Task) (pathFound : Bool) :
      w.state = WorkerState.IDLE → task.status = TaskStatus.QUEUED →
      WStep w (assignTaskStep w task pathFound)
  | arrive {w : WorkerCore} (pathFound : Bool) :
      (w.state = WorkerState.MOVING_TO_TASK ∨ w.state = WorkerState.MOVING_TO_PICK ∨
       w.state = WorkerState.CARRYING ∨ w.state = WorkerState.RETURNING) →
      WStep w (onArrivedStep w pathFound)
  | workDone {w : WorkerCore} :
      w.state = WorkerState.WORKING → WStep w (finishWorkStep w)
  | deliverDone {w : WorkerCore} (pathHome : Bool) :
      w.state = WorkerState.DELIVERING → WStep w (finishDeliverStep w pathHome)

/-- A freshly hired worker (`Worker.__init__`): IDLE, no task, carrying nothing. -/
def initWorkerCore : WorkerCore :=
  { state := WorkerState.IDLE, current_task := none, carried_item_id := none }

/-- The states in which workers/worker.py keeps `current_task` set: from
`_assign_task` until `_finish_work` / `_finish_deliver` / `_fail_task`
clears it.  `RETURNING` is entered by `_finish_deliver` after clearing. -/
def taskHoldingState (st : WorkerState) : Bool :=
  match st with
  | WorkerState.MOVING_TO_TASK => true
  | WorkerState.WORKING => true
  | WorkerState.MOVING_TO_PICK => true
  | WorkerState.CARRYING => true
  | WorkerState.DELIVERING => true
  | _ => false

/-!
production/task.py — the per-task status/assignee machine, as driven by the
call sites in the scheduler and the workers:

  * `Task.assign` is only applied to a task returned by
    `get_task_for_worker`, whose filter requires status `QUEUED`
    (task_manager.py line 61, worker.py lines 110-112, 161-164);
  * `Task.start` is only applied in `Worker._on_arrived` while
    `MOVING_TO_TASK`, i.e. to the worker's just-assigned task (status
    `ASSIGNED`; no other code changes it in between, since only the holding
    worker completes or fails its own task);
  * `complete_task` / `fail_task` are only invoked by the holding worker on
    its current task (status `ASSIGNED` or `IN_PROGRESS`); `fail_task`
    performs `Task.fail` immediately followed by the requeue reset
    (task_manager.py lines 116 and 126-127), modelled as one atomic
    `failRequeue`.
-/

/-- task_manager.py `fail_task` lines 116 and 126-127 applied to the task:
`Task.fail` then the requeue reset. -/
def Task.failRequeue (t : Task) : Task :=
  let t' := t.fail
  { t' with status := TaskStatus.QUEUED, assigned_worker_id := none }

/-- The per-task step relation induced by the call sites described above. -/
inductive TaskStep : Task → Task → Prop
  | assignStep {t : Task} (worker_id : Nat) :
      t.status = TaskStatus.QUEUED → TaskStep t (t.assign worker_id)
  | startStep {t : Task} :
      t.status = TaskStatus.ASSIGNED → TaskStep t t.start
  | completeStep {t : Task} :
      (t.status = TaskStatus.ASSIGNED ∨ t.status = TaskStatus.IN_PROGRESS) →
      TaskStep t t.complete
  | failStep {t : Task} :
      (t.status = TaskStatus.ASSIGNED ∨ t.status = TaskStatus.IN_PROGRESS) →
      TaskStep t t.failRequeue

/-!
System-level composition: the task manager state, the worker instances of the
worker manager, and the walkability grid of the tilemap.  Each step of the
relation `SStep` is one handler invocation of the source, with the pathfinder
called on the embedded grid exactly as `Worker._navigate_to` does.  A worker's
`current_task` is the task id (the Python field holds a reference to the task
object living in `_tasks`, which is never deleted from the dict).  Tile
occupancy lives on the department tile lists, updated by coordinates (the
Python department lists alias the tilemap's tile objects).
-/

/-- One `Worker` as the worker manager holds it: id, home department, tile
position, remaining path, and the state-machine fields. -/
structure WorkerSys where
  worker_id : Nat
  home_dept : String
  tile_col : Int
  tile_row : Int
  path : List (Int × Int) := []
  state : WorkerState := WorkerState.IDLE
  current_task : Option Nat := none
  carried_item_id : Option Nat := none
deriving DecidableEq

/-- The composed system state. -/
structure SystemState where
  tm : TMState
  workers : List WorkerSys := []
  grid : List (List Bool) := []
deriving DecidableEq

/-- Occupancy mutation of the tilemap tile at `(c, r)`: every department tile
aliasing these coordinates is updated (`Tile.set_occupant` / `clear_occupant`
through `tilemap.get_tile`; a coordinate with no tile is a no-op, matching
`get_tile` returning `None`). -/
def setTileOccupant (s : TMState) (c r : Int) (wid : Option Nat) : TMState :=
  { s with departments := s.departments.map (fun d =>
      { d with
        workstation_tiles := d.workstation_tiles.map (fun t =>
          if t.col == c && t.row == r then { t with occupied_by := wid } else t),
        drop_point_tiles := d.drop_point_tiles.map (fun t =>
          if t.col == c && t.row == r then { t with occupied_by := wid } else t) }) }

/-- Lookup of a worker by id. -/
def findWorker (s : SystemState) (wid : Nat) : Option WorkerSys :=
  s.workers.find? (fun w => w.worker_id == wid)

/-- Mutation of the shared worker object with the given id. -/
def updateWorker (s : SystemState) (wid : Nat) (f : WorkerSys → WorkerSys) : SystemState :=
  { s with workers := s.workers.map (fun w => if w.worker_id == wid then f w else w) }

/-- workers/worker.py `_navigate_to` acceptance condition (line 184):
`path or (col == self.tile_col and row == self.tile_row)`. -/
def navigateOk (path : List (Int × Int)) (col row tcol trow : Int) : Bool :=
  !path.isEmpty || (col == tcol && row == trow)

/-- workers/worker.py `_fail_task` at system level: notify `fail_task`, then
reset the worker fields. -/
def systemFailTask (s : SystemState) (wid : Nat) : SystemState :=
  let s1 :=
    match (findWorker s wid).bind WorkerSys.current_task with
    | some tid => { s with tm := fail_task s.tm tid }
    | none => s
  updateWorker s1 wid (fun w =>
    { w with current_task := none, carried_item_id := none, state := WorkerState.IDLE })

/-- workers/worker.py `_update_idle` + `_assign_task` at system level, for a
task the scheduler returned: set `current_task`, `task.assign`, then request
a path to the task's target tile and transition (or fail the task). -/
def systemAssignTask (s : SystemState) (wid : Nat) (w : WorkerSys) (task : Task) :
    SystemState :=
  let s1 := updateWorker s wid (fun w => { w with current_task := some task.task_id })
  let s2 := { s1 with tm := updateTask s1.tm task.task_id (fun t => t.assign wid) }
  let path := (find_path s2.grid (w.tile_col, w.tile_row)
    (task.target_col, task.target_row)).getD []
  match task.task_type with
  | TaskType.PROCESS =>
      if navigateOk path task.target_col task.target_row w.tile_col w.tile_row then
        updateWorker s2 wid (fun w =>
          { w with path := path, state := WorkerState.MOVING_TO_TASK })
      else systemFailTask s2 wid
  | TaskType.CARRY =>
      if navigateOk path task.target_col task.target_row w.tile_col w.tile_row then
        updateWorker s2 wid (fun w =>
          { w with path := path, state := WorkerState.MOVING_TO_PICK })
      else systemFailTask s2 wid

/-- workers/worker.py `_update_moving`, the snap-to-waypoint branch with a
nonempty path (lines 126-140): pop the next waypoint, release the previous
tile's occupancy, take the next tile's. -/
def systemMoveStep (s : SystemState) (wid : Nat) (w : WorkerSys) (next : Int × Int)
    (rest : List (Int × Int)) : SystemState :=
  let s1 := { s with tm := setTileOccupant s.tm w.tile_col w.tile_row none }
  let s2 := { s1 with tm := setTileOccupant s1.tm next.1 next.2 (some wid) }
  updateWorker s2 wid (fun w => { w with tile_col := next.1, tile_row := next.2, path := rest })

/-- workers/worker.py `_on_arrived` at system level (path exhausted). -/
def systemOnArrived (s : SystemState) (wid : Nat) (w : WorkerSys) : SystemState :=
  match w.current_task with
  | none => updateWorker s wid (fun w => { w with state := WorkerState.IDLE })
  | some tid =>
    match findTask s.tm tid with
    | none => s
    | some task =>
      match w.state with
      | WorkerState.MOVING_TO_TASK =>
          let s1 := { s with tm := updateTask s.tm task.task_id Task.start }
          updateWorker s1 wid (fun w => { w with state := WorkerState.WORKING })
      | WorkerState.MOVING_TO_PICK =>
          let s1 := updateWorker s wid (fun w =>
            { w with carried_item_id := some task.item_id })
          let s2 := { s1 with tm := on_item_picked_up s1.tm task.item_id wid }
          let path := (find_path s2.grid (w.tile_col, w.tile_row)
            (task.deliver_col, task.deliver_row)).getD []
          if navigateOk path task.deliver_col task.deliver_row w.tile_col w.tile_row then
            updateWorker s2 wid (fun w =>
              { w with path := path, state := WorkerState.CARRYING })
          else systemFailTask s2 wid
      | WorkerState.CARRYING =>
          updateWorker s wid (fun w => { w with state := WorkerState.DELIVERING })
      | WorkerState.RETURNING =>
          updateWorker s wid (fun w => { w with state := WorkerState.IDLE })
      | _ => s

/-- workers/worker.py `_finish_work` at system level. -/
def systemFinishWork (s : SystemState) (wid : Nat) (w : WorkerSys) : SystemState :=
  let s1 :=
    match w.current_task with
    | some tid => { s with tm := complete_task s.tm tid }
    | none => s
  updateWorker s1 wid (fun w => { w with current_task := none, state := WorkerState.IDLE })

/-- workers/worker.py `_finish_deliver` at system level. -/
def systemFinishDeliver (s : SystemState) (wid : Nat) (w : WorkerSys) : SystemState :=
  let s1 :=
    match w.current_task with
    | some tid => { s with tm := complete_task s.tm tid }
    | none => s
  let s2 := updateWorker s1 wid (fun w =>
    { w with carried_item_id := none, current_task := none })
  match getDept s2.tm w.home_dept with
  | some dept =>
    match dept.drop_point_tiles.head? with
    | some dp =>
      let path := (find_path s2.grid (w.tile_col, w.tile_row) (dp.col, dp.row)).getD []
      if navigateOk path dp.col dp.row w.tile_col w.tile_row then
        updateWorker s2 wid (fun w =>
          { w with path := path, state := WorkerState.RETURNING })
      else updateWorker s2 wid (fun w => { w with state := WorkerState.IDLE })
    | none => updateWorker s2 wid (fun w => { w with state := WorkerState.IDLE })
  | none => updateWorker s2 wid (fun w => { w with state := WorkerState.IDLE })

/-- The system step relation.  Each constructor is one handler invocation as
the per-frame loop fires it; `itemArrived` is the `OrderManager._spawn_items`
call site, whose items are freshly constructed at stage `"receiving"` with
clear flags.  (The relation is a fragment — omitting other entry points only
shrinks the reachable set.) -/
inductive SStep : SystemState → SystemState → Prop
  | itemArrived {s : SystemState} (item : Item) :
      item.stage = "receiving" → item.being_processed = false → item.processed = false →
      item.ready_to_carry = false → item.carrier_id = none →
      findItem s.tm item.item_id = none →
      (∀ t ∈ s.tm.tasks, t.item_id ≠ item.item_id) →
      SStep s { s with tm := on_item_arrived s.tm item }
  | claimTask {s : SystemState} (wid : Nat) (w : WorkerSys) (task : Task) :
      findWorker s wid = some w → w.state = WorkerState.IDLE →
      get_task_for_worker s.tm w.home_dept = some task →
      SStep s (systemAssignTask s wid w task)
  | moveStep {s : SystemState} (wid : Nat) (w : WorkerSys) (next : Int × Int)
      (rest : List (Int × Int)) :
      findWorker s wid = some w →
      (w.state = WorkerState.MOVING_TO_TASK ∨ w.state = WorkerState.MOVING_TO_PICK ∨
       w.state = WorkerState.CARRYING ∨ w.state = WorkerState.RETURNING) →
      w.path = next :: rest →
      SStep s (systemMoveStep s wid w next rest)
  | arriveStep {s : SystemState} (wid : Nat) (w : WorkerSys) :
      findWorker s wid = some w →
      (w.state = WorkerState.MOVING_TO_TASK ∨ w.state = WorkerState.MOVING_TO_PICK ∨
       w.state = WorkerState.CARRYING ∨ w.state = WorkerState.RETURNING) →
      w.path = [] →
      SStep s (systemOnArrived s wid w)
  | workDone {s : SystemState} (wid : Nat) (w : WorkerSys) :
      findWorker s wid = some w → w.state = WorkerState.WORKING →
      SStep s (systemFinishWork s wid w)
  | deliverDone {s : SystemState} (wid : Nat) (w : WorkerSys) :
      findWorker s wid = some w → w.state = WorkerState.DELIVERING →
      SStep s (systemFinishDeliver s wid w)
  | tickStep {s : SystemState} :
      SStep s { s with tm := s.tm.tick }

/-- workers/worker_manager.py `_remove_worker` (lines 104-112): pop the
worker, release its tile occupancy, decrement the department head-count.
Its current task is not touched. -/
def removeWorker (s : SystemState) (wid : Nat) (deptName : String) : SystemState :=
  match findWorker s wid with
  | none => s
  | some w =>
    let s1 := { s with workers := s.workers.filter (fun x => x.worker_id != wid) }
    let s2 := { s1 with tm := setTileOccupant s1.tm w.tile_col w.tile_row none }
    { s2 with
      tm := updateDept s2.tm deptName (fun d => { d with worker_count := d.worker_count - 1 }) }

/-- workers/worker_manager.py `fire_worker` (lines 81-102): prefer the most
recently inserted IDLE worker of the department; if none is idle, remove the
most recently inserted worker of the department regardless of its state.
`self._workers` is an insertion-ordered dict, so `reversed(list(keys))` scans
most-recent-first. -/
def fire_worker (s : SystemState) (deptName : String) : Bool × SystemState :=
  match getDept s.tm deptName with
  | none => (false, s)
  | some dept =>
    if dept.worker_count == 0 then (false, s)
    else
      match s.workers.reverse.find?
          (fun w => w.home_dept == deptName && w.state == WorkerState.IDLE) with
      | some w => (true, removeWorker s w.worker_id deptName)
      | none =>
        match s.workers.reverse.find? (fun w => w.home_dept == deptName) with
        | some w => (true, removeWorker s w.worker_id deptName)
        | none => (false, s)

/-- Count of `IN_PROGRESS` `PROCESS` tasks of one department in the task table. -/
def countInProgressProcess (s : TMState) (deptName : String) : Nat :=
  (s.tasks.filter (fun t =>
    t.task_type == TaskType.PROCESS && t.status == TaskStatus.IN_PROGRESS
      && t.dept == deptName)).length

/-- Number of workstation tiles of one department. -/
def workstationCount (s : TMState) (deptName : String) : Nat :=
  match getDept s deptName with
  | some d => d.workstation_tiles.length
  | none => 0

/-- items_processed counter of one department (0 when the department is absent). -/
def itemsProcessedOf (s : TMState) (deptName : String) : Int :=
  match getDept s deptName with
  | some d => d.items_processed
  | none => 0

/-! Concrete sample states used by the witnesses and counterexamples. -/

/-- The empty task-manager state. -/
def emptyTM : TMState := {}

/-- Two queued tasks of the `prep` department with distinct priorities, the
lower-priority one inserted first. -/
def taskLowPri : Task := { task_id := 1, dept := "prep", priority := 0 }

/-- The higher-priority task, inserted second. -/
def taskHighPri : Task := { task_id := 2, dept := "prep", priority := 5 }

/-- Pending queue holding `taskLowPri` before `taskHighPri`. -/
def sPriority : TMState := { tasks := [taskLowPri, taskHighPri], pending := [1, 2] }

/-- A `prep` department whose buffer holds one item being processed, with an
`IN_PROGRESS` `PROCESS` task for it held by worker 0.  There is no `cooking`
department, so completing the task creates no carry task. -/
def sDouble : TMState :=
  { tasks := [{ task_id := 1, task_type := TaskType.PROCESS,
                status := TaskStatus.IN_PROGRESS, item_id := 7, dept := "prep",
                assigned_worker_id := some 0 }],
    pending := [1],
    departments := [{ name := "prep",
                      item_buffer := [{ item_id := 7, stage := "prep",
                                        being_processed := true }] }],
    next_task_id := 2 }

/-- A state with one `COMPLETE` task whose item is in no buffer. -/
def sCompleteGone : TMState :=
  { tasks := [{ task_id := 1, task_type := TaskType.PROCESS,
                status := TaskStatus.COMPLETE, item_id := 7, dept := "prep",
                assigned_worker_id := some 0 }],
    pending := [],
    departments := [{ name := "prep" }],
    next_task_id := 2 }

/-- A state with one `ASSIGNED` task held by worker 3. -/
def sAssigned : TMState :=
  { tasks := [{ task_id := 1, task_type := TaskType.PROCESS,
                status := TaskStatus.ASSIGNED, item_id := 7, dept := "prep",
                assigned_worker_id := some 3 }],
    pending := [1],
    departments := [] }

/-- The value of the task of `sAssigned` after `complete_task`. -/
def taskCompletedStillAssigned : Task :=
  { task_id := 1, task_type := TaskType.PROCESS, status := TaskStatus.COMPLETE,
    item_id := 7, dept := "prep", assigned_worker_id := some 3 }

/-- A fresh task as both creation sites construct it: QUEUED, unassigned. -/
def freshTask : Task := { task_id := 1 }

/-- The fresh task assigned to worker 3 and then completed: the status is
`COMPLETE` but the assignee field survives. -/
def completedTask : Task := (freshTask.assign 3).complete

/-- A `CARRY` task used by the worker-machine counterexample trace. -/
def carryTaskEx : Task :=
  { task_id := 1, task_type := TaskType.CARRY, item_id := 7, dept := "prep" }

/-- The worker-machine state reached after delivering: RETURNING with no task. -/
def wReturning : WorkerCore :=
  { state := WorkerState.RETURNING, current_task := none, carried_item_id := none }

/-- System state for the fire-worker counterexample: a single `prep` worker,
WORKING, holding the only task, which is `IN_PROGRESS`. -/
def sFire : SystemState :=
  { tm := { tasks := [{ task_id := 1, task_type := TaskType.PROCESS,
                        status := TaskStatus.IN_PROGRESS, item_id := 7, dept := "prep",
                        assigned_worker_id := some 0 }],
            pending := [],
            departments := [{ name := "prep", worker_count := 1 }] },
    workers := [{ worker_id := 0, home_dept := "prep", tile_col := 1, tile_row := 1,
                  state := WorkerState.WORKING, current_task := some 1 }],
    grid := [] }

/-- The leaked task after the fire: still `IN_PROGRESS`, still nominally
assigned to the removed worker 0. -/
def leakedTask : Task :=
  { task_id := 1, task_type := TaskType.PROCESS, status := TaskStatus.IN_PROGRESS,
    item_id := 7, dept := "prep", assigned_worker_id := some 0 }

/-- A CARRY task, assigned to worker 2, used by the fail-task witness. -/
def tFailEx : Task :=
  { task_id := 1, task_type := TaskType.CARRY, status := TaskStatus.ASSIGNED,
    item_id := 7, dept := "prep", assigned_worker_id := some 2 }

/-- The item carried by `tFailEx`. -/
def iFailEx : Item :=
  { item_id := 7, stage := "prep", processed := true, ready_to_carry := true,
    carrier_id := some 2 }

/-- State holding `tFailEx` and `iFailEx` for the fail-task witness. -/
def sFail : TMState :=
  { tasks := [tFailEx], pending := [],
    departments := [{ name := "prep", item_buffer := [iFailEx] }] }

/-- The task `_try_create_process_task` constructs for `item` at department
`d` against workstation `ws` (its `task_id` is the state's fresh id). -/
def newProcessTask (s : TMState) (item : Item) (d : Department) (ws : Tile) : Task :=
  { task_id := s.next_task_id, task_type := TaskType.PROCESS, item_id := item.item_id,
    dept := d.name, target_col := ws.col, target_row := ws.row,
    work_duration := WORKER_WORK_DURATION }

/-- An unoccupied workstation tile used by the creation-guard witness. -/
def wsFreeW : Tile := { col := 5, row := 4, is_workstation := true }

/-- A fresh, unprocessed item used by the creation-guard witness. -/
def itemW : Item := { item_id := 3, stage := "receiving" }

/-- State with one free workstation for the creation-guard witness. -/
def sCreate : TMState :=
  { departments := [{ name := "receiving", workstation_tiles := [wsFreeW],
                      item_buffer := [itemW] }] }

/-- The task `tryCreateProcessTask` creates on `sCreate`. -/
def taskW : Task :=
  { task_id := 0, task_type := TaskType.PROCESS, item_id := 3, dept := "receiving",
    target_col := 5, target_row := 4 }

/-!
Concrete system trace for the workstation-capacity counterexample: one
`receiving` department with a single workstation tile at (2, 1) and a drop
point at (1, 1), two workers hired at the drop point, an all-walkable 4x3
grid.  Two items arrive before any worker reaches the workstation, so both
PROCESS tasks are created against the same (still unoccupied) tile; both
workers claim, walk there and start working.
-/

/-- All-walkable 4-column, 3-row grid. -/
def grid1 : List (List Bool) :=
  [[true, true, true, true], [true, true, true, true], [true, true, true, true]]

/-- The single workstation tile of the trace department. -/
def wsTile1 : Tile :=
  { col := 2, row := 1, walkable := true, dept := some "receiving", is_workstation := true }

/-- The drop-point tile of the trace department. -/
def dpTile1 : Tile :=
  { col := 1, row := 1, walkable := true, dept := some "receiving", is_drop_point := true }

/-- The trace department: one workstation, one drop point, two workers. -/
def recvDept1 : Department :=
  { name := "receiving", display_name := "Receiving",
    workstation_tiles := [wsTile1], drop_point_tiles := [dpTile1], worker_count := 2 }

/-- First arriving item. -/
def itemA : Item := { item_id := 1, stage := "receiving", world_x := 72, world_y := 72 }

/-- Second arriving item. -/
def itemB : Item := { item_id := 2, stage := "receiving", world_x := 72, world_y := 72 }

/-- Worker 0, hired at the drop point. -/
def wkA : WorkerSys := { worker_id := 0, home_dept := "receiving", tile_col := 1, tile_row := 1 }

/-- Worker 1, hired at the drop point. -/
def wkB : WorkerSys := { worker_id := 1, home_dept := "receiving", tile_col := 1, tile_row := 1 }

/-- The initial system state of the trace. -/
def sysInit : SystemState :=
  { tm := { departments := [recvDept1] }, workers := [wkA, wkB], grid := grid1 }

/-- After `itemA` arrives (PROCESS task 0 created against the free tile). -/
def sys1 : SystemState := { sysInit with tm := on_item_arrived sysInit.tm itemA }

/-- After `itemB` arrives (PROCESS task 1 created against the same tile). -/
def sys2 : SystemState := { sys1 with tm := on_item_arrived sys1.tm itemB }

/-- The first created task. -/
def taskA : Task :=
  { task_id := 0, task_type := TaskType.PROCESS, item_id := 1, dept := "receiving",
    target_col := 2, target_row := 1 }

/-- The second created task, targeting the same workstation tile. -/
def taskB : Task :=
  { task_id := 1, task_type := TaskType.PROCESS, item_id := 2, dept := "receiving",
    target_col := 2, target_row := 1 }

/-- After worker 0 claims task 0. -/
def sys3 : SystemState := systemAssignTask sys2 0 wkA taskA

/-- After worker 1 claims task 1. -/
def sys4 : SystemState := systemAssignTask sys3 1 wkB taskB

/-- Worker 0 as it stands in `sys4`. -/
def wkA2 : WorkerSys :=
  { worker_id := 0, home_dept := "receiving", tile_col := 1, tile_row := 1,
    path := [(2, 1)], state := WorkerState.MOVING_TO_TASK, current_task := some 0 }

/-- Worker 1 as it stands in `sys4`. -/
def wkB2 : WorkerSys :=
  { worker_id := 1, home_dept := "receiving", tile_col := 1, tile_row := 1,
    path := [(2, 1)], state := WorkerState.MOVING_TO_TASK, current_task := some 1 }

/-- After worker 0 steps onto the workstation tile. -/
def sys5 : SystemState := systemMoveStep sys4 0 wkA2 (2, 1) []

/-- After worker 1 steps onto the same workstation tile. -/
def sys6 : SystemState := systemMoveStep sys5 1 wkB2 (2, 1) []

/-- Worker 0 as it stands in `sys6`. -/
def wkA3 : WorkerSys :=
  { worker_id := 0, home_dept := "receiving", tile_col := 2, tile_row := 1,
    path := [], state := WorkerState.MOVING_TO_TASK, current_task := some 0 }

/-- Worker 1 as it stands in `sys6`. -/
def wkB3 : WorkerSys :=
  { worker_id := 1, home_dept := "receiving", tile_col := 2, tile_row := 1,
    path := [], state := WorkerState.MOVING_TO_TASK, current_task := some 1 }

/-- After worker 0 arrives: task 0 becomes IN_PROGRESS. -/
def sys7 : SystemState := systemOnArrived sys6 0 wkA3

/-- After worker 1 arrives: task 1 becomes IN_PROGRESS as well. -/
def sys8 : SystemState := systemOnArrived sys7 1 wkB3

/-- A 1-column, 2-row grid with no walkable tile at all. -/
def gridDead : List (List Bool) := [[false], [false]]

/-- A cell the A* search may step onto: in bounds and walkable. -/
def okCell (walkable : List (List Bool)) (cols rows : Int) (n : Int × Int) : Prop :=
  0 ≤ n.1 ∧ n.1 < cols ∧ 0 ≤ n.2 ∧ n.2 < rows ∧ gridAt walkable n.1 n.2 = true

/-- The walkable in-bounds neighbours of a cell — exactly the cells the A*
loop relaxes from `n` (`_neighbors` plus the `walkable` skip). -/
def okNbrs (walkable : List (List Bool)) (cols rows : Int) (n : Int × Int) :
    List (Int × Int) :=
  (neighborsOf n.1 n.2 cols rows).filter (fun y => gridAt walkable y.1 y.2)

/-- A valid 4-directional walk from `s` to `t` through walkable in-bounds
cells; the waypoint list excludes `s`, matching the pathfinder's output
convention. -/
def validWalk (walkable : List (List Bool)) (cols rows : Int) :
    (Int × Int) → List (Int × Int) → (Int × Int) → Bool
  | s, [], t => s == t
  | s, x :: xs, t =>
      (okNbrs walkable cols rows s).contains x && validWalk walkable cols rows x xs t

/-- The fully walkable 5x5 grid of the spec's pathfinder scenario. -/
def grid5 : List (List Bool) :=
  [[true, true, true, true, true], [true, true, true, true, true],
   [true, true, true, true, true], [true, true, true, true, true],
   [true, true, true, true, true]]

/-- Termination measure of the A* loop: the sum of all recorded `g` scores,
plus the heap size, plus a large credit for every not-yet-recorded key.  Each
iteration strictly decreases it. -/
def aPhi (K : Nat) (st : AStarState) : Nat :=
  (st.g_score.map Prod.snd).sum + st.open_set.length + (K - st.g_score.length) * (K + 1)

/-- The A* loop invariant, with an optional excluded node `exz` whose
relaxation obligation is temporarily suspended (the node just popped, while
its neighbour pass is running).  `AInv` below is the full invariant. -/
structure AInvX (walkable : List (List Bool)) (cols rows : Int)
    (start goal : Int × Int) (exz : Option (Int × Int)) (st : AStarState) : Prop where
  start_g : lookupA st.g_score start = some 0
  keys_nodup : (st.g_score.map Prod.fst).Nodup
  keys_ok : ∀ pr ∈ st.g_score, pr.1 = start ∨ okCell walkable cols rows pr.1
  g_lt : ∀ pr ∈ st.g_score, pr.2 < st.g_score.length
  heap_keyed : ∀ e ∈ st.open_set, ∃ g, lookupA st.g_score e.2 = some g
  heap_goal : ∀ e ∈ st.open_set, e.2 = goal →
    ∃ g, lookupA st.g_score goal = some g ∧ g ≤ e.1
  relaxed : ∀ n g, lookupA st.g_score n = some g → some n ≠ exz →
    (∃ f, (f, n) ∈ st.open_set ∧ f ≤ g + heuristic n goal) ∨
    (∀ y ∈ okNbrs walkable cols rows n,
      ∃ gy, lookupA st.g_score y = some gy ∧ gy ≤ g + 1)
  goal_entry : ∀ g, lookupA st.g_score goal = some g → ∃ f, (f, goal) ∈ st.open_set
  cf_edge : ∀ pr ∈ st.came_from, ∃ gn gp, lookupA st.g_score pr.1 = some gn ∧
    lookupA st.g_score pr.2 = some gp ∧ gp + 1 ≤ gn ∧
    pr.1 ∈ okNbrs walkable cols rows pr.2
  cf_total : ∀ pr ∈ st.g_score, pr.1 = start ∨ ∃ q, (pr.1, q) ∈ st.came_from
  cf_nostart : ∀ pr ∈ st.came_from, pr.1 ≠ start
  cf_count : st.g_score.length = st.came_from.length + 1

/-- The full A* loop invariant (no suspended node). -/
def AInv (walkable : List (List Bool)) (cols rows : Int) (start goal : Int × Int)
    (st : AStarState) : Prop :=
  AInvX walkable cols rows start goal none st

/-- The four neighbours `_nearest_walkable` enqueues for a cell, in source
order (up, down, left, right) and without any bounds check. -/
def cellNbrs (p : Int × Int) : List (Int × Int) :=
  [(p.1, p.2 - 1), (p.1, p.2 + 1), (p.1 - 1, p.2), (p.1 + 1, p.2)]

/-- Invariant of the `_nearest_walkable` BFS: every visited cell is either
still queued or has had all four of its neighbours visited. -/
def bfsInv (visited q : List (Int × Int)) : Prop :=
  ∀ p ∈ visited, p ∈ q ∨ ∀ n ∈ cellNbrs p, n ∈ visited

/-! Theorems. -/

/-- Keyed-store lemma: mapping an id-preserving update over the keyed entries
commutes with the keyed lookup. -/
theorem find?_map_keyed {α : Type} (key : α → Nat) (id : Nat) (f : α → α)
    (hf : ∀ a, key a = id → key (f a) = id) (l : List α) :
    (l.map (fun a => if key a == id then f a else a)).find? (fun a => key a == id)
      = (l.find? (fun a => key a == id)).map f := by
  induction l with
  | nil => rfl
  | cons a rest ih =>
    by_cases h : key a = id
    · have hb : (key a == id) = true := beq_iff_eq.mpr h
      have hb2 : (key (f a) == id) = true := beq_iff_eq.mpr (hf a h)
      rw [List.map_cons, if_pos hb, List.find?_cons, List.find?_cons]
      simp [hb, hb2]
    · have hb : (key a == id) = false := beq_eq_false_iff_ne.mpr h
      have hprop : ¬((key a == id) = true) := by simp [hb]
      rw [List.map_cons, if_neg hprop, List.find?_cons, List.find?_cons, hb]
      exact ih

/-- A filter that removes a non-member changes nothing. -/
theorem filter_ne_of_not_mem (l : List Nat) (a : Nat) (h : a ∉ l) :
    l.filter (fun x => x != a) = l := by
  induction l with
  | nil => rfl
  | cons b rest ih =>
    simp only [List.mem_cons, not_or] at h
    have hb : (b != a) = true := by simp [bne_iff_ne]; exact fun hh => h.1 hh.symm
    rw [List.filter_cons, if_pos hb, ih h.2]

/-- `Task.complete` on an already-COMPLETE task changes nothing. -/
theorem Task.complete_eq_self (t : Task) (h : t.status = TaskStatus.COMPLETE) :
    t.complete = t := by
  cases t
  simp_all [Task.complete]

/-- C10: for every task id that is not a key of the task table, `complete_task`
and `fail_task` return without modifying any state (the guard
`self._tasks.get(task_id)` returning `None` short-circuits both). -/
theorem unknown_task_id_is_noop (s : TMState) (task_id : Nat)
    (h : findTask s task_id = none) :
    complete_task s task_id = s ∧ fail_task s task_id = s := by
  unfold complete_task fail_task
  rw [h]
  exact ⟨rfl, rfl⟩

/-- Witness for `unknown_task_id_is_noop` on the empty state. -/
theorem unknown_task_id_is_noop_witness :
    findTask emptyTM 5 = none ∧
      (complete_task emptyTM 5 = emptyTM ∧ fail_task emptyTM 5 = emptyTM) :=
  ⟨rfl, unknown_task_id_is_noop emptyTM 5 rfl⟩

/-- C5: `get_task_for_worker` does not return the highest-priority QUEUED task
of the worker's department; it returns the first QUEUED matching task in
pending-list insertion order, ignoring `priority` (contradicting the
function's own docstring and the `_pending` comment "sorted by priority"):
with a priority-0 task inserted before a priority-5 task of the same
department, the priority-0 task is returned. -/
theorem get_task_for_worker_ignores_priority :
    get_task_for_worker sPriority "prep" = some taskLowPri ∧
    taskLowPri.priority < taskHighPri.priority ∧
    taskLowPri.status = TaskStatus.QUEUED ∧ taskHighPri.status = TaskStatus.QUEUED ∧
    taskLowPri.dept = "prep" ∧ taskHighPri.dept = "prep" := by
  decide

/-- C2 (counterexample): completing the same PROCESS task id twice is not a
no-op — the second call increments the department's `items_processed` again
(and so changes the state), because `complete_task` only guards against a
missing task, not an already-completed one. -/
theorem complete_task_not_idempotent :
    itemsProcessedOf (complete_task sDouble 1) "prep" = 1 ∧
    itemsProcessedOf (complete_task (complete_task sDouble 1) 1) "prep" = 2 ∧
    complete_task (complete_task sDouble 1) 1 ≠ complete_task sDouble 1 := by
  decide

/-- C2 (amended): the second `complete_task` call has no additional effect
provided the task's item is no longer found in any department buffer; when
the item is still buffered the item-side effects are repeated (the PROCESS
branch increments `items_processed` again and attempts another CARRY task). -/
theorem complete_task_second_call_noop_when_item_gone (s : TMState) (task_id : Nat)
    (hstat : ∀ t ∈ s.tasks, t.task_id = task_id → t.status = TaskStatus.COMPLETE)
    (hp : task_id ∉ s.pending)
    (hi : ∀ t ∈ s.tasks, t.task_id = task_id → findItem s t.item_id = none) :
    complete_task s task_id = s := by
  cases h : findTask s task_id with
  | none => unfold complete_task; rw [h]
  | some t =>
    have h' : s.tasks.find? (fun t => t.task_id == task_id) = some t := h
    have hmem : t ∈ s.tasks := List.mem_of_find?_eq_some h'
    have hb := List.find?_some h'
    have hid : t.task_id = task_id := by simpa using hb
    have hC : t.status = TaskStatus.COMPLETE := hstat t hmem hid
    have hmap : ∀ t' ∈ s.tasks,
        (if t'.task_id == task_id then Task.complete t' else t') = t' := by
      intro t' ht'
      by_cases hh : t'.task_id = task_id
      · rw [if_pos (beq_iff_eq.mpr hh)]
        exact Task.complete_eq_self t' (hstat t' ht' hh)
      · rw [if_neg (by simp [hh])]
    have h1 : updateTask s task_id Task.complete = s := by
      unfold updateTask
      rw [List.map_congr_left hmap, List.map_id']
    have h2 : s.pending.filter (fun id => id != task_id) = s.pending :=
      filter_ne_of_not_mem _ _ hp
    unfold complete_task
    rw [h]
    simp only [h1, h2]
    rw [hi t hmem hid]

/-- Witness for `complete_task_second_call_noop_when_item_gone`. -/
theorem complete_task_second_call_noop_witness :
    complete_task sCompleteGone 1 = sCompleteGone :=
  complete_task_second_call_noop_when_item_gone sCompleteGone 1
    (by decide) (by decide) (by decide)

/-- C3 (counterexample): `Task.complete` leaves `assigned_worker_id` set, so a
task assigned to worker 3 and then completed — a reachable task state, also
produced by `complete_task` — has status COMPLETE with a non-null assignee,
falsifying the claimed biconditional. -/
theorem complete_leaves_assignee_set :
    Relation.ReflTransGen TaskStep freshTask completedTask ∧
    completedTask.status = TaskStatus.COMPLETE ∧
    completedTask.assigned_worker_id = some 3 ∧
    ¬(completedTask.assigned_worker_id ≠ none ↔
        (completedTask.status = TaskStatus.ASSIGNED ∨
         completedTask.status = TaskStatus.IN_PROGRESS)) ∧
    findTask (complete_task sAssigned 1) 1 = some taskCompletedStillAssigned ∧
    ¬(taskCompletedStillAssigned.assigned_worker_id ≠ none ↔
        (taskCompletedStillAssigned.status = TaskStatus.ASSIGNED ∨
         taskCompletedStillAssigned.status = TaskStatus.IN_PROGRESS)) := by
  refine ⟨?_, by decide, by decide, by decide, by decide, by decide⟩
  exact Relation.ReflTransGen.tail
    (Relation.ReflTransGen.single (TaskStep.assignStep 3 rfl))
    (TaskStep.completeStep (Or.inl rfl))

/-- C3 (amended): at every task state reachable from a freshly created task,
status ∈ {ASSIGNED, IN_PROGRESS} implies a non-null assignee, and a non-null
assignee implies status ∈ {ASSIGNED, IN_PROGRESS, COMPLETE} — the claimed
biconditional weakened only by admitting COMPLETE tasks, whose assignee field
`Task.complete` does not clear. -/
theorem task_assignee_invariant (t0 t : Task)
    (h0s : t0.status = TaskStatus.QUEUED) (h0w : t0.assigned_worker_id = none)
    (hr : Relation.ReflTransGen TaskStep t0 t) :
    ((t.status = TaskStatus.ASSIGNED ∨ t.status = TaskStatus.IN_PROGRESS) →
        t.assigned_worker_id ≠ none) ∧
    (t.assigned_worker_id ≠ none →
        (t.status = TaskStatus.ASSIGNED ∨ t.status = TaskStatus.IN_PROGRESS ∨
         t.status = TaskStatus.COMPLETE)) := by
  induction hr with
  | refl =>
    constructor
    · intro hcase
      rcases hcase with hc | hc <;> rw [h0s] at hc <;> cases hc
    · intro hw
      exact absurd h0w hw
  | tail _ hstep ih =>
    cases hstep with
    | assignStep w hq =>
      exact ⟨fun _ => by simp [Task.assign], fun _ => Or.inl rfl⟩
    | startStep hA =>
      exact ⟨fun _ => by simpa [Task.start] using ih.1 (Or.inl hA),
             fun _ => Or.inr (Or.inl rfl)⟩
    | completeStep hAI =>
      constructor
      · intro hcase
        rcases hcase with hc | hc <;> simp [Task.complete] at hc
      · intro _
        exact Or.inr (Or.inr rfl)
    | failStep hAI =>
      constructor
      · intro hcase
        rcases hcase with hc | hc <;> simp [Task.failRequeue, Task.fail] at hc
      · intro hw
        simp [Task.failRequeue, Task.fail] at hw

/-- Witness for `task_assignee_invariant` at the fresh task itself. -/
theorem task_assignee_invariant_witness :
    ((freshTask.status = TaskStatus.ASSIGNED ∨ freshTask.status = TaskStatus.IN_PROGRESS) →
        freshTask.assigned_worker_id ≠ none) ∧
    (freshTask.assigned_worker_id ≠ none →
        (freshTask.status = TaskStatus.ASSIGNED ∨ freshTask.status = TaskStatus.IN_PROGRESS ∨
         freshTask.status = TaskStatus.COMPLETE)) :=
  task_assignee_invariant freshTask freshTask rfl rfl Relation.ReflTransGen.refl

/-- C6: the `fire_worker` fallback removes a non-idle worker without failing
its task — firing the only (WORKING) worker of `prep` succeeds, removes the
worker, and leaves its task `IN_PROGRESS`, still nominally assigned to the
removed worker, absent from the pending queue, and never offered to any
future worker by `get_task_for_worker` (which only returns QUEUED tasks).
The spec's Design Notes call this reference behavior a known gap; the claim
states the required behavior, so the code is at fault. -/
theorem fire_worker_leaks_in_progress_task :
    (fire_worker sFire "prep").1 = true ∧
    (fire_worker sFire "prep").2.workers = [] ∧
    findTask (fire_worker sFire "prep").2.tm 1 = some leakedTask ∧
    leakedTask.status = TaskStatus.IN_PROGRESS ∧
    leakedTask.assigned_worker_id = some 0 ∧
    (fire_worker sFire "prep").2.tm.pending = [] ∧
    get_task_for_worker (fire_worker sFire "prep").2.tm "prep" = none := by
  decide

/-- `findTask` through `updateTask` for an id-preserving update. -/
theorem findTask_updateTask (s : TMState) (id : Nat) (f : Task → Task)
    (hf : ∀ t : Task, t.task_id = id → (f t).task_id = id) :
    findTask (updateTask s id f) id = (findTask s id).map f :=
  find?_map_keyed Task.task_id id f hf s.tasks

/-- `findItem` through `updateItem` for an id-preserving update. -/
theorem findItem_updateItem (s : TMState) (id : Nat) (f : Item → Item)
    (hf : ∀ i : Item, i.item_id = id → (f i).item_id = id) :
    findItem (updateItem s id f) id = (findItem s id).map f := by
  have h1 : (updateItem s id f).departments.map Department.item_buffer
      = (s.departments.map Department.item_buffer).map
          (List.map (fun i => if i.item_id == id then f i else i)) := by
    unfold updateItem
    rw [List.map_map, List.map_map]
    rfl
  show ((updateItem s id f).departments.map Department.item_buffer).flatten.find? _
      = _
  rw [h1, (List.map_flatten ..).symm]
  exact find?_map_keyed Item.item_id id f hf
    ((s.departments.map Department.item_buffer).flatten)

/-- C9: `fail_task` on a task present in the table whose item is in some
department buffer leaves the task with status QUEUED, a null assignee and
membership in the pending queue; a PROCESS task's item gets
`being_processed` cleared, a CARRY task's item gets its carrier cleared and
`ready_to_carry` set, so the item is re-schedulable. -/
theorem fail_task_requeues (s : TMState) (task_id : Nat) (task : Task) (item : Item)
    (hT : findTask s task_id = some task)
    (hI : findItem s task.item_id = some item) :
    findTask (fail_task s task_id) task_id =
      some { task with status := TaskStatus.QUEUED, assigned_worker_id := none } ∧
    task_id ∈ (fail_task s task_id).pending ∧
    (task.task_type = TaskType.PROCESS →
      findItem (fail_task s task_id) task.item_id =
        some { item with being_processed := false }) ∧
    (task.task_type = TaskType.CARRY →
      findItem (fail_task s task_id) task.item_id =
        some { item with ready_to_carry := true, carrier_id := none }) := by
  have hI1 : findItem (updateTask s task_id Task.fail) task.item_id = some item := hI
  cases htt : task.task_type with
  | PROCESS =>
    simp only [fail_task, hT, hI1, htt]
    set s3 := updateTask (updateItem (updateTask s task_id Task.fail) task.item_id
        (fun i => { i with being_processed := false })) task_id
        (fun t => { t with status := TaskStatus.QUEUED, assigned_worker_id := none }) with hs3
    have hTask3 : findTask s3 task_id =
        some { task with status := TaskStatus.QUEUED, assigned_worker_id := none } := by
      rw [hs3, findTask_updateTask _ task_id
        (fun t => { t with status := TaskStatus.QUEUED, assigned_worker_id := none })
        (fun t h => h)]
      have heq : findTask (updateItem (updateTask s task_id Task.fail) task.item_id
          (fun i => { i with being_processed := false })) task_id
          = findTask (updateTask s task_id Task.fail) task_id := rfl
      rw [heq, findTask_updateTask _ task_id Task.fail (fun t h => h), hT]
      rfl
    rw [htt] at hTask3
    have hItem3 : findItem s3 task.item_id = some { item with being_processed := false } := by
      have : findItem s3 task.item_id
          = findItem (updateItem (updateTask s task_id Task.fail) task.item_id
              (fun i => { i with being_processed := false })) task.item_id := rfl
      rw [this, findItem_updateItem _ task.item_id
        (fun i => { i with being_processed := false }) (fun i h => h), hI1]
      rfl
    refine ⟨?_, ?_, ?_, ?_⟩
    · split
      · exact hTask3
      · exact hTask3
    · split
      · assumption
      · simp
    · intro _
      split
      · exact hItem3
      · exact hItem3
    · intro hc
      cases hc
  | CARRY =>
    simp only [fail_task, hT, hI1, htt]
    set s3 := updateTask (updateItem (updateTask s task_id Task.fail) task.item_id
        (fun i => { i with ready_to_carry := true, carrier_id := none })) task_id
        (fun t => { t with status := TaskStatus.QUEUED, assigned_worker_id := none }) with hs3
    have hTask3 : findTask s3 task_id =
        some { task with status := TaskStatus.QUEUED, assigned_worker_id := none } := by
      rw [hs3, findTask_updateTask _ task_id
        (fun t => { t with status := TaskStatus.QUEUED, assigned_worker_id := none })
        (fun t h => h)]
      have heq : findTask (updateItem (updateTask s task_id Task.fail) task.item_id
          (fun i => { i with ready_to_carry := true, carrier_id := none })) task_id
          = findTask (updateTask s task_id Task.fail) task_id := rfl
      rw [heq, findTask_updateTask _ task_id Task.fail (fun t h => h), hT]
      rfl
    rw [htt] at hTask3
    have hItem3 : findItem s3 task.item_id =
        some { item with ready_to_carry := true, carrier_id := none } := by
      have : findItem s3 task.item_id
          = findItem (updateItem (updateTask s task_id Task.fail) task.item_id
              (fun i => { i with ready_to_carry := true, carrier_id := none })) task.item_id := rfl
      rw [this, findItem_updateItem _ task.item_id
        (fun i => { i with ready_to_carry := true, carrier_id := none }) (fun i h => h), hI1]
      rfl
    refine ⟨?_, ?_, ?_, ?_⟩
    · split
      · exact hTask3
      · exact hTask3
    · split
      · assumption
      · simp
    · intro hc
      cases hc
    · intro _
      split
      · exact hItem3
      · exact hItem3

/-- Witness for `fail_task_requeues` on a concrete CARRY task. -/
theorem fail_task_requeues_witness :
    findTask (fail_task sFail 1) 1 =
      some { tFailEx with status := TaskStatus.QUEUED, assigned_worker_id := none } ∧
    1 ∈ (fail_task sFail 1).pending ∧
    (tFailEx.task_type = TaskType.PROCESS →
      findItem (fail_task sFail 1) tFailEx.item_id =
        some { iFailEx with being_processed := false }) ∧
    (tFailEx.task_type = TaskType.CARRY →
      findItem (fail_task sFail 1) tFailEx.item_id =
        some { iFailEx with ready_to_carry := true, carrier_id := none }) :=
  fail_task_requeues sFail 1 tFailEx iFailEx (by decide) (by decide)

/-- C4 (counterexample): a worker that claims a CARRY task, picks up, delivers
and paths home reaches the RETURNING state with `current_task = None`
(`_finish_deliver` clears the task before entering RETURNING), so
"current_task non-null iff state is not IDLE" fails at a reachable state. -/
theorem returning_worker_without_task_reachable :
    Relation.ReflTransGen WStep initWorkerCore wReturning ∧
    wReturning.state ≠ WorkerState.IDLE ∧ wReturning.current_task = none := by
  refine ⟨?_, by decide, rfl⟩
  exact Relation.ReflTransGen.tail (Relation.ReflTransGen.tail (Relation.ReflTransGen.tail
    (Relation.ReflTransGen.single (WStep.idleClaim carryTaskEx true rfl rfl))
    (WStep.arrive true (Or.inr (Or.inl rfl))))
    (WStep.arrive true (Or.inr (Or.inr (Or.inl rfl)))))
    (WStep.deliverDone true rfl)

/-- C4 (amended): at every reachable worker state, `current_task` is non-null
iff the state is one of MOVING_TO_TASK, WORKING, MOVING_TO_PICK, CARRYING,
DELIVERING — i.e. iff the state is neither IDLE nor RETURNING.  The claimed
biconditional fails only for RETURNING, which `_finish_deliver` enters after
clearing `current_task`. -/
theorem worker_task_iff_holding (w : WorkerCore)
    (hr : Relation.ReflTransGen WStep initWorkerCore w) :
    w.current_task ≠ none ↔ taskHoldingState w.state = true := by
  suffices h : w.current_task.isSome = taskHoldingState w.state by
    rw [← h, Option.isSome_iff_ne_none]
  induction hr with
  | refl => rfl
  | @tail b c hab hstep ih =>
    cases hstep with
    | idleClaim task pf hidle hq =>
      cases htt : task.task_type <;> cases pf <;>
        simp [assignTaskStep, failTaskStep, htt, taskHoldingState]
    | arrive pf hmv =>
      cases hct : b.current_task with
      | none => simp [onArrivedStep, hct, taskHoldingState]
      | some task =>
        rcases hmv with h | h | h | h
        · simp [onArrivedStep, hct, h, taskHoldingState]
        · cases pf <;> simp [onArrivedStep, hct, h, failTaskStep, taskHoldingState]
        · simp [onArrivedStep, hct, h, taskHoldingState]
        · rw [hct, h] at ih
          simp [taskHoldingState] at ih
    | workDone hW => simp [finishWorkStep, taskHoldingState]
    | deliverDone pathHome hD =>
      cases pathHome <;> simp [finishDeliverStep, taskHoldingState]

/-- Witness for `worker_task_iff_holding` at the initial worker. -/
theorem worker_task_iff_holding_witness :
    initWorkerCore.current_task ≠ none ↔ taskHoldingState initWorkerCore.state = true :=
  worker_task_iff_holding initWorkerCore Relation.ReflTransGen.refl

/-- C1 (amended): `_try_create_process_task` creates a task only when
`get_free_workstation` returns a currently unoccupied workstation tile of
the department, and the created task targets exactly that tile.  (This
creation-time guard is all the code provides: occupancy is set only when a
worker arrives, so the IN_PROGRESS bound claimed against the workstation
count does not hold — see the counterexample.) -/
theorem tryCreateProcessTask_requires_free_workstation
    (s : TMState) (item : Item) (deptName : String) (t : Task)
    (h : (tryCreateProcessTask s item deptName).tasks = s.tasks ++ [t]) :
    ∃ d ws, getDept s deptName = some d ∧ d.get_free_workstation = some ws ∧
      ws.occupied_by = none ∧ t.target_col = ws.col ∧ t.target_row = ws.row ∧
      t.task_type = TaskType.PROCESS ∧ t.status = TaskStatus.QUEUED ∧ t.dept = d.name := by
  unfold tryCreateProcessTask at h
  split at h
  · exact absurd (congrArg List.length h) (by simp)
  · split at h
    · exact absurd (congrArg List.length h) (by simp)
    · rename_i d hd
      split at h
      · exact absurd (congrArg List.length h) (by simp)
      · rename_i ws hws
        have hws' : d.workstation_tiles.find? (fun t => t.occupied_by.isNone) = some ws := hws
        have hocc : ws.occupied_by = none := by
          have hp := List.find?_some hws'
          simpa [Option.isNone_iff_eq_none] using hp
        have h' : s.tasks ++ [newProcessTask s item d ws] = s.tasks ++ [t] := h
        have ht2 : newProcessTask s item d ws = t := by
          have hl := List.append_cancel_left h'
          injection hl
        exact ⟨d, ws, hd, hws, hocc, by rw [← ht2]; rfl, by rw [← ht2]; rfl,
          by rw [← ht2]; rfl, by rw [← ht2]; rfl, by rw [← ht2]; rfl⟩

/-- Witness for `tryCreateProcessTask_requires_free_workstation`. -/
theorem tryCreateProcessTask_free_workstation_witness :
    ∃ d ws, getDept sCreate "receiving" = some d ∧ d.get_free_workstation = some ws ∧
      ws.occupied_by = none ∧ taskW.target_col = ws.col ∧ taskW.target_row = ws.row ∧
      taskW.task_type = TaskType.PROCESS ∧ taskW.status = TaskStatus.QUEUED ∧
      taskW.dept = d.name :=
  tryCreateProcessTask_requires_free_workstation sCreate itemW "receiving" taskW (by decide)

/-- C1 (counterexample): a reachable state of the step relation in which the
`receiving` department has one workstation tile but two IN_PROGRESS PROCESS
tasks — both tasks were created while the tile was unoccupied (occupancy is
only set on worker arrival), then claimed by two workers who both walked to
the same tile and started. -/
theorem process_capacity_bound_fails :
    Relation.ReflTransGen SStep sysInit sys8 ∧
    countInProgressProcess sys8.tm "receiving" = 2 ∧
    workstationCount sys8.tm "receiving" = 1 := by
  refine ⟨?_, by decide, by decide⟩
  have e1 : SStep sysInit sys1 :=
    SStep.itemArrived itemA rfl rfl rfl rfl rfl (by decide) (by decide)
  have e2 : SStep sys1 sys2 :=
    SStep.itemArrived itemB rfl rfl rfl rfl rfl (by decide) (by decide)
  have e3 : SStep sys2 sys3 :=
    SStep.claimTask 0 wkA taskA (by decide) rfl (by decide)
  have e4 : SStep sys3 sys4 :=
    SStep.claimTask 1 wkB taskB (by decide) rfl (by decide)
  have e5 : SStep sys4 sys5 :=
    SStep.moveStep 0 wkA2 (2, 1) [] (by decide) (Or.inl rfl) rfl
  have e6 : SStep sys5 sys6 :=
    SStep.moveStep 1 wkB2 (2, 1) [] (by decide) (Or.inl rfl) rfl
  have e7 : SStep sys6 sys7 :=
    SStep.arriveStep 0 wkA3 (by decide) (Or.inl rfl) rfl
  have e8 : SStep sys7 sys8 :=
    SStep.arriveStep 1 wkB3 (by decide) (Or.inl rfl) rfl
  exact Relation.ReflTransGen.tail (Relation.ReflTransGen.tail (Relation.ReflTransGen.tail
    (Relation.ReflTransGen.tail (Relation.ReflTransGen.tail (Relation.ReflTransGen.tail
      (Relation.ReflTransGen.tail (Relation.ReflTransGen.single e1) e2) e3) e4) e5) e6) e7) e8

/-- Visited cells survive an enqueue. -/
theorem enq_visited_mono (vq : List (Int × Int) × List (Int × Int)) (n x : Int × Int)
    (h : x ∈ vq.1) : x ∈ (enqueueNeighbor vq n).1 := by
  unfold enqueueNeighbor
  split
  · exact h
  · exact List.mem_append_left _ h

/-- Queued cells survive an enqueue. -/
theorem enq_queue_mono (vq : List (Int × Int) × List (Int × Int)) (n x : Int × Int)
    (h : x ∈ vq.2) : x ∈ (enqueueNeighbor vq n).2 := by
  unfold enqueueNeighbor
  split
  · exact h
  · exact List.mem_append_left _ h

/-- The enqueued cell is visited afterwards. -/
theorem enq_self_visited (vq : List (Int × Int) × List (Int × Int)) (n : Int × Int) :
    n ∈ (enqueueNeighbor vq n).1 := by
  unfold enqueueNeighbor
  split
  · assumption
  · exact List.mem_append_right _ (by simp)

/-- A cell visited after an enqueue was visited before or is now queued. -/
theorem enq_visited_cases (vq : List (Int × Int) × List (Int × Int)) (n x : Int × Int)
    (h : x ∈ (enqueueNeighbor vq n).1) : x ∈ vq.1 ∨ x ∈ (enqueueNeighbor vq n).2 := by
  unfold enqueueNeighbor at h ⊢
  split at h
  · rename_i hmem
    rw [if_pos hmem]
    exact Or.inl h
  · rename_i hmem
    rw [if_neg hmem]
    rcases List.mem_append.mp h with h1 | h1
    · exact Or.inl h1
    · exact Or.inr (List.mem_append_right _ h1)

/-- Enqueueing preserves "every queued cell is visited". -/
theorem enq_queue_sub_visited (vq : List (Int × Int) × List (Int × Int)) (n : Int × Int)
    (h : ∀ x ∈ vq.2, x ∈ vq.1) :
    ∀ x ∈ (enqueueNeighbor vq n).2, x ∈ (enqueueNeighbor vq n).1 := by
  intro x hx
  unfold enqueueNeighbor at hx ⊢
  split at hx
  · rename_i hmem
    rw [if_pos hmem]
    exact h x hx
  · rename_i hmem
    rw [if_neg hmem]
    rcases List.mem_append.mp hx with h1 | h1
    · exact List.mem_append_left _ (h x h1)
    · exact List.mem_append_right _ h1

/-- Every nonempty list has an element maximising an integer measure. -/
theorem exists_max_image_cons {α : Type} (f : α → Int) :
    ∀ (l : List α) (a : α), ∃ m, m ∈ a :: l ∧ ∀ x ∈ a :: l, f x ≤ f m
  | [], a => ⟨a, by simp, by intro x hx; rw [List.mem_singleton] at hx; rw [hx]⟩
  | b :: tl, a => by
    obtain ⟨m, hm, hmax⟩ := exists_max_image_cons f tl b
    by_cases hcmp : f a ≤ f m
    · refine ⟨m, List.mem_cons_of_mem _ hm, ?_⟩
      intro x hx
      rcases List.mem_cons.mp hx with hx | hx
      · rw [hx]; exact hcmp
      · exact hmax x hx
    · refine ⟨a, List.mem_cons_self _ _, ?_⟩
      intro x hx
      rcases List.mem_cons.mp hx with hx | hx
      · rw [hx]
      · exact le_trans (hmax x hx) (le_of_not_le hcmp)

/-- On the no-walkable grid, the BFS walkable test always fails. -/
theorem deadCheck (c r : Int) :
    ¬(0 ≤ r ∧ r < 2 ∧ 0 ≤ c ∧ c < 1 ∧ gridAt gridDead c r = true) := by
  rintro ⟨h1, h2, h3, h4, h5⟩
  have hc : c = 0 := by omega
  have hr2 : r = 0 ∨ r = 1 := by omega
  subst hc
  rcases hr2 with hr | hr <;> subst hr <;> exact absurd h5 (by decide)

/-- On the no-walkable grid, the `_nearest_walkable` BFS loop exhausts any
fuel: the queue can never empty (a queue-empty state would make the finite
visited set closed under the unbounded neighbour expansion, impossible for a
set with a maximal coordinate sum), and it never finds a walkable tile. -/
theorem nearestLoop_dead (fuel : Nat) :
    ∀ (v q : List (Int × Int)), bfsInv v q → (∀ x ∈ q, x ∈ v) → q ≠ [] →
      nearestLoop gridDead 2 1 fuel v q = none := by
  induction fuel with
  | zero => intro v q _ _ _; rfl
  | succ fuel ih =>
    intro v q hinv hq hne
    cases q with
    | nil => exact absurd rfl hne
    | cons p rest =>
      obtain ⟨c, r⟩ := p
      have hstep : nearestLoop gridDead 2 1 (fuel + 1) v ((c, r) :: rest) =
          (if 0 ≤ r ∧ r < 2 ∧ 0 ≤ c ∧ c < 1 ∧ gridAt gridDead c r = true
           then some (some (c, r))
           else nearestLoop gridDead 2 1 fuel
             (enqueueNeighbor (enqueueNeighbor (enqueueNeighbor (enqueueNeighbor
               (v, rest) (c, r - 1)) (c, r + 1)) (c - 1, r)) (c + 1, r)).1
             (enqueueNeighbor (enqueueNeighbor (enqueueNeighbor (enqueueNeighbor
               (v, rest) (c, r - 1)) (c, r + 1)) (c - 1, r)) (c + 1, r)).2) := rfl
      rw [hstep, if_neg (deadCheck c r)]
      set q1 := enqueueNeighbor (v, rest) (c, r - 1) with hq1
      set q2 := enqueueNeighbor q1 (c, r + 1) with hq2
      set q3 := enqueueNeighbor q2 (c - 1, r) with hq3
      set q4 := enqueueNeighbor q3 (c + 1, r) with hq4
      have hvm1 : ∀ x ∈ v, x ∈ q4.1 := fun x hx =>
        enq_visited_mono _ _ _ (enq_visited_mono _ _ _ (enq_visited_mono _ _ _
          (enq_visited_mono (v, rest) (c, r - 1) x hx)))
      have hrest : ∀ x ∈ rest, x ∈ q4.2 := fun x hx =>
        enq_queue_mono _ _ _ (enq_queue_mono _ _ _ (enq_queue_mono _ _ _
          (enq_queue_mono (v, rest) (c, r - 1) x hx)))
      have hn1 : (c, r - 1) ∈ q4.1 :=
        enq_visited_mono _ _ _ (enq_visited_mono _ _ _ (enq_visited_mono _ _ _
          (enq_self_visited (v, rest) (c, r - 1))))
      have hn2 : (c, r + 1) ∈ q4.1 :=
        enq_visited_mono _ _ _ (enq_visited_mono _ _ _ (enq_self_visited q1 (c, r + 1)))
      have hn3 : (c - 1, r) ∈ q4.1 :=
        enq_visited_mono _ _ _ (enq_self_visited q2 (c - 1, r))
      have hn4 : (c + 1, r) ∈ q4.1 := enq_self_visited q3 (c + 1, r)
      have hvcases : ∀ x ∈ q4.1, x ∈ v ∨ x ∈ q4.2 := by
        intro x hx
        rcases enq_visited_cases q3 (c + 1, r) x hx with hx3 | hx3
        · rcases enq_visited_cases q2 (c - 1, r) x hx3 with hx2 | hx2
          · rcases enq_visited_cases q1 (c, r + 1) x hx2 with hx1 | hx1
            · rcases enq_visited_cases (v, rest) (c, r - 1) x hx1 with hx0 | hx0
              · exact Or.inl hx0
              · exact Or.inr (enq_queue_mono _ _ _ (enq_queue_mono _ _ _
                  (enq_queue_mono _ _ _ hx0)))
            · exact Or.inr (enq_queue_mono _ _ _ (enq_queue_mono _ _ _ hx1))
          · exact Or.inr (enq_queue_mono _ _ _ hx2)
        · exact Or.inr hx3
      have hqsub : ∀ x ∈ q4.2, x ∈ q4.1 := by
        apply enq_queue_sub_visited
        apply enq_queue_sub_visited
        apply enq_queue_sub_visited
        apply enq_queue_sub_visited
        intro x hx
        exact hq x (List.mem_cons_of_mem _ hx)
      have hinv4 : bfsInv q4.1 q4.2 := by
        intro x hx
        rcases hvcases x hx with hxv | hxq
        · rcases hinv x hxv with hxq0 | hcl
          · rcases List.mem_cons.mp hxq0 with hxp | hxr
            · right
              intro n hn
              rw [hxp] at hn
              simp only [cellNbrs, List.mem_cons, List.not_mem_nil, or_false] at hn
              rcases hn with rfl | rfl | rfl | rfl
              · exact hn1
              · exact hn2
              · exact hn3
              · exact hn4
            · exact Or.inl (hrest x hxr)
          · right
            intro n hn
            exact hvm1 n (hcl n hn)
        · exact Or.inl hxq
      have hqne : q4.2 ≠ [] := by
        intro h0
        have hclosed : ∀ x ∈ q4.1, ∀ n ∈ cellNbrs x, n ∈ q4.1 := by
          intro x hx
          rcases hinv4 x hx with hxq | hcl
          · rw [h0] at hxq
            cases hxq
          · exact hcl
        have hpv : (c, r) ∈ q4.1 := hvm1 _ (hq (c, r) (List.mem_cons_self _ _))
        have hv4ne : ∃ a tl, q4.1 = a :: tl := by
          cases hvq : q4.1 with
          | nil => rw [hvq] at hpv; cases hpv
          | cons a tl => exact ⟨a, tl, rfl⟩
        obtain ⟨a, tl, hvq⟩ := hv4ne
        obtain ⟨m, hm, hmax⟩ := exists_max_image_cons (fun p => p.1 + p.2) tl a
        rw [← hvq] at hm hmax
        have heast : (m.1 + 1, m.2) ∈ q4.1 :=
          hclosed m hm (m.1 + 1, m.2) (by simp [cellNbrs])
        have := hmax (m.1 + 1, m.2) heast
        simp only at this
        omega
      exact ih q4.1 q4.2 hinv4 hqsub hqne

/-- C8: on a grid with no walkable tile at all and a goal distinct from the
start, `find_path` never returns: `_nearest_walkable` enqueues neighbours
without any bounds check, so its breadth-first frontier grows over the whole
integer plane and the loop runs forever (every fuel bound is exhausted),
instead of terminating with the empty path as the claim requires. -/
theorem find_path_diverges_on_dead_grid :
    ∀ fuel, find_pathF gridDead (0, 0) (0, 1) fuel = none := by
  intro fuel
  have hkey : nearestLoop gridDead 2 1 fuel [(0, 1)] [(0, 1)] = none := by
    apply nearestLoop_dead
    · intro p hp
      exact Or.inl (by simpa using hp)
    · intro x hx
      simpa using hx
    · simp
  have hdef : find_pathF gridDead (0, 0) (0, 1) fuel =
      (match nearestLoop gridDead 2 1 fuel [(0, 1)] [(0, 1)] with
        | none => none
        | some none => some []
        | some (some g) => astarLoop gridDead 1 2 g fuel
            { open_set := [(0, (0, 0))], came_from := [], g_score := [((0, 0), 0)] }) := rfl
  rw [hdef, hkey]

/-- Witness: the divergence theorem applied at the concrete fuel 1000. -/
theorem find_path_diverges_on_dead_grid_witness :
    find_pathF gridDead (0, 0) (0, 1) 1000 = none :=
  find_path_diverges_on_dead_grid 1000

/-! Association-list lemmas for the A* `g_score` / `came_from` dicts. -/

/-- A successful lookup yields a member pair. -/
theorem lookupA_mem {α : Type} {l : List ((Int × Int) × α)} {k : Int × Int} {v : α}
    (h : lookupA l k = some v) : (k, v) ∈ l := by
  unfold lookupA at h
  cases hf : l.find? (fun p => p.1 == k) with
  | none => rw [hf] at h; cases h
  | some pr =>
    rw [hf] at h
    have hm := List.mem_of_find?_eq_some hf
    have hp := List.find?_some hf
    have hk : pr.1 = k := by simpa using hp
    have hv : pr.2 = v := by simpa using h
    have : pr = (k, v) := by
      cases pr
      simp_all
    rw [← this]
    exact hm

/-- A failing lookup means no pair has the key. -/
theorem lookupA_eq_none {α : Type} {l : List ((Int × Int) × α)} {k : Int × Int} :
    lookupA l k = none ↔ ∀ pr ∈ l, pr.1 ≠ k := by
  unfold lookupA
  rw [Option.map_eq_none', List.find?_eq_none]
  constructor
  · intro h pr hpr
    have := h pr hpr
    simpa using this
  · intro h pr hpr
    simpa using h pr hpr

/-- With distinct keys, membership determines the lookup. -/
theorem mem_lookupA {α : Type} {l : List ((Int × Int) × α)} {k : Int × Int} {v : α}
    (hnd : (l.map Prod.fst).Nodup) (hm : (k, v) ∈ l) : lookupA l k = some v := by
  induction l with
  | nil => cases hm
  | cons a rest ih =>
    rw [List.map_cons, List.nodup_cons] at hnd
    rcases List.mem_cons.mp hm with he | hm'
    · subst he
      unfold lookupA
      simp [List.find?_cons]
    · have hka : (a.1 == k) = false := by
        refine beq_eq_false_iff_ne.mpr ?_
        intro he
        exact hnd.1 (he ▸ (List.mem_map_of_mem Prod.fst hm'))
      unfold lookupA
      rw [List.find?_cons, hka]
      exact ih hnd.2 hm'

/-- Lookup of the replaced key in the map-replace half of `insertA`. -/
theorem lookupA_map_replace_self {α : Type} (k : Int × Int) (v : α) :
    ∀ l : List ((Int × Int) × α),
      lookupA (l.map (fun p => if p.1 == k then (k, v) else p)) k
        = if (l.find? (fun p => p.1 == k)).isSome then some v else none := by
  intro l
  induction l with
  | nil => rfl
  | cons a rest ih =>
    by_cases ha : (a.1 == k) = true
    · unfold lookupA
      rw [List.map_cons, if_pos ha, List.find?_cons, List.find?_cons, ha]
      simp
    · have ha' : (a.1 == k) = false := by
        cases hb : (a.1 == k)
        · rfl
        · exact absurd hb ha
      unfold lookupA at ih ⊢
      rw [List.map_cons, if_neg (by simp [ha']), List.find?_cons, List.find?_cons, ha', ih]

/-- Lookup of a different key through the map-replace half of `insertA`. -/
theorem lookupA_map_replace_ne {α : Type} (k k' : Int × Int) (v : α) (hne : k' ≠ k) :
    ∀ l : List ((Int × Int) × α),
      lookupA (l.map (fun p => if p.1 == k then (k, v) else p)) k' = lookupA l k' := by
  intro l
  induction l with
  | nil => rfl
  | cons a rest ih =>
    by_cases ha : (a.1 == k) = true
    · have hak : a.1 = k := by simpa using ha
      have hk' : ((k, v).1 == k') = false := beq_eq_false_iff_ne.mpr (by simpa using (Ne.symm hne))
      have hak' : (a.1 == k') = false := beq_eq_false_iff_ne.mpr (by rw [hak]; exact Ne.symm hne)
      unfold lookupA at ih ⊢
      rw [List.map_cons, if_pos ha, List.find?_cons, List.find?_cons, hk', hak', ih]
    · have ha' : (a.1 == k) = false := by
        cases hb : (a.1 == k)
        · rfl
        · exact absurd hb ha
      unfold lookupA at ih ⊢
      rw [List.map_cons, if_neg (by simp [ha']), List.find?_cons, List.find?_cons]
      cases hk : a.1 == k'
      · exact ih
      · rfl

/-- `insertA` then lookup of the same key. -/
theorem lookupA_insertA_self {α : Type} (l : List ((Int × Int) × α)) (k : Int × Int) (v : α) :
    lookupA (insertA l k v) k = some v := by
  unfold insertA
  split
  · rename_i hsome
    rw [lookupA_map_replace_self, if_pos hsome]
  · rename_i hnone
    unfold lookupA
    rw [List.find?_append]
    have h1 : l.find? (fun p => p.1 == k) = none := by
      cases hf : l.find? (fun p => p.1 == k)
      · rfl
      · rw [hf] at hnone; simp at hnone
    rw [h1]
    simp [List.find?_cons]

/-- `insertA` then lookup of a different key. -/
theorem lookupA_insertA_ne {α : Type} (l : List ((Int × Int) × α)) (k k' : Int × Int)
    (v : α) (hne : k' ≠ k) : lookupA (insertA l k v) k' = lookupA l k' := by
  unfold insertA
  split
  · exact lookupA_map_replace_ne k k' v hne l
  · unfold lookupA
    rw [List.find?_append]
    have hk' : ((k, v).1 == k') = false := beq_eq_false_iff_ne.mpr (by simpa using Ne.symm hne)
    cases hf : l.find? (fun p => p.1 == k') with
    | none => simp [List.find?_cons, hk']
    | some pr => rfl

/-- Membership in an `insertA` result. -/
theorem mem_insertA {α : Type} {l : List ((Int × Int) × α)} {k : Int × Int} {v : α}
    {pr : (Int × Int) × α} (h : pr ∈ insertA l k v) :
    pr = (k, v) ∨ (pr ∈ l ∧ pr.1 ≠ k) := by
  unfold insertA at h
  split at h
  · rcases List.mem_map.mp h with ⟨q, hq, hqe⟩
    by_cases hqk : (q.1 == k) = true
    · rw [if_pos hqk] at hqe
      exact Or.inl hqe.symm
    · have hqk' : (q.1 == k) = false := by
        cases hb : (q.1 == k)
        · rfl
        · exact absurd hb hqk
      rw [if_neg (by simp [hqk'])] at hqe
      refine Or.inr ⟨hqe ▸ hq, ?_⟩
      rw [← hqe]
      simpa using hqk'
  · rcases List.mem_append.mp h with h1 | h1
    · by_cases hpk : pr.1 = k
      · rename_i hnone
        have : lookupA l k = none := by
          unfold lookupA
          cases hf : l.find? (fun p => p.1 == k)
          · rfl
          · rw [hf] at hnone; simp at hnone
        exact absurd hpk (lookupA_eq_none.mp this pr h1)
      · exact Or.inr ⟨h1, hpk⟩
    · rw [List.mem_singleton] at h1
      exact Or.inl h1

/-- The key list of `insertA` when the key is already present. -/
theorem insertA_keys_present {α : Type} (l : List ((Int × Int) × α)) (k : Int × Int)
    (v : α) (h : (l.find? (fun p => p.1 == k)).isSome = true) :
    (insertA l k v).map Prod.fst = l.map Prod.fst := by
  unfold insertA
  rw [if_pos h, List.map_map]
  refine List.map_congr_left ?_
  intro p hp
  by_cases hpk : (p.1 == k) = true
  · simp only [Function.comp]
    rw [if_pos hpk]
    have : p.1 = k := by simpa using hpk
    rw [← this]
  · have hpk' : (p.1 == k) = false := by
      cases hb : (p.1 == k)
      · rfl
      · exact absurd hb hpk
    simp only [Function.comp]
    rw [if_neg (by simp [hpk'])]

/-- The key list of `insertA` when the key is new. -/
theorem insertA_keys_absent {α : Type} (l : List ((Int × Int) × α)) (k : Int × Int)
    (v : α) (h : (l.find? (fun p => p.1 == k)).isSome = false) :
    (insertA l k v).map Prod.fst = l.map Prod.fst ++ [k] := by
  unfold insertA
  rw [if_neg (by simp [h]), List.map_append]
  rfl

/-- The length of `insertA`: unchanged for a present key, one more for a new
key. -/
theorem insertA_length {α : Type} (l : List ((Int × Int) × α)) (k : Int × Int) (v : α) :
    (insertA l k v).length =
      if (l.find? (fun p => p.1 == k)).isSome then l.length else l.length + 1 := by
  unfold insertA
  split
  · exact List.length_map _ _
  · simp

/-! Heap (`popMin`) lemmas. -/

/-- `entryLt` implies `f` order. -/
theorem entryLt_fst_le {a b : Nat × Int × Int} (h : entryLt a b = true) : a.1 ≤ b.1 := by
  unfold entryLt at h
  rcases Bool.or_eq_true_iff.mp h with h1 | h1
  · exact le_of_lt (by simpa using h1)
  · have h2 := (Bool.and_eq_true_iff.mp h1).1
    exact le_of_eq (by simpa using h2)

/-- Failing `entryLt` implies the reverse `f` order. -/
theorem not_entryLt_fst_le {a b : Nat × Int × Int} (h : ¬ entryLt a b = true) : b.1 ≤ a.1 := by
  have hb : entryLt a b = false := by
    cases hx : entryLt a b
    · rfl
    · exact absurd hx h
  unfold entryLt at hb
  rcases Bool.or_eq_false_iff.mp hb with ⟨h1, _⟩
  have : ¬ a.1 < b.1 := by simpa using h1
  omega

/-- `minEntry` returns a member. -/
theorem minEntry_mem : ∀ {l : List (Nat × Int × Int)} {m : Nat × Int × Int},
    minEntry l = some m → m ∈ l := by
  intro l
  induction l with
  | nil => intro m h; cases h
  | cons a rest ih =>
    intro m h
    unfold minEntry at h
    cases hr : minEntry rest with
    | none =>
      rw [hr] at h
      have h2 : some a = some m := h
      injection h2 with h'
      subst h'
      exact List.mem_cons_self _ _
    | some m' =>
      rw [hr] at h
      have h2 : (if entryLt m' a = true then some m' else some a) = some m := h
      by_cases hlt : entryLt m' a = true
      · rw [if_pos hlt] at h2
        injection h2 with h'
        subst h'
        exact List.mem_cons_of_mem _ (ih hr)
      · rw [if_neg hlt] at h2
        injection h2 with h'
        subst h'
        exact List.mem_cons_self _ _

/-- `minEntry` has the least `f` value. -/
theorem minEntry_fst_le : ∀ {l : List (Nat × Int × Int)} {m : Nat × Int × Int},
    minEntry l = some m → ∀ e ∈ l, m.1 ≤ e.1 := by
  intro l
  induction l with
  | nil => intro m h; cases h
  | cons a rest ih =>
    intro m h e he
    unfold minEntry at h
    cases hr : minEntry rest with
    | none =>
      rw [hr] at h
      have h2 : some a = some m := h
      injection h2 with h'
      subst h'
      have hrest : rest = [] := by
        cases rest with
        | nil => rfl
        | cons b tl =>
          exfalso
          unfold minEntry at hr
          cases hx : minEntry tl <;> rw [hx] at hr
          · exact Option.noConfusion hr
          · rename_i mm
            have hr2 : (if entryLt mm b = true then some mm else some b) = none := hr
            by_cases hb : entryLt mm b = true
            · rw [if_pos hb] at hr2
              exact Option.noConfusion hr2
            · rw [if_neg hb] at hr2
              exact Option.noConfusion hr2
      subst hrest
      rw [List.mem_singleton] at he
      rw [he]
    | some m' =>
      rw [hr] at h
      have h2 : (if entryLt m' a = true then some m' else some a) = some m := h
      by_cases hlt : entryLt m' a = true
      · rw [if_pos hlt] at h2
        injection h2 with h'
        subst h'
        rcases List.mem_cons.mp he with he | he'
        · rw [he]
          exact entryLt_fst_le hlt
        · exact ih hr e he'
      · rw [if_neg hlt] at h2
        injection h2 with h'
        subst h'
        rcases List.mem_cons.mp he with he | he'
        · rw [he]
        · exact le_trans (not_entryLt_fst_le hlt) (ih hr e he')

/-- `popMin` pops a member with minimal `f`, and the rest is the erase. -/
theorem popMin_spec {l : List (Nat × Int × Int)} {m : Nat × Int × Int}
    {rest : List (Nat × Int × Int)} (h : popMin l = some (m, rest)) :
    m ∈ l ∧ rest = l.erase m ∧ ∀ e ∈ l, m.1 ≤ e.1 := by
  unfold popMin at h
  cases hm : minEntry l with
  | none =>
    rw [hm] at h
    exact Option.noConfusion h
  | some m' =>
    rw [hm] at h
    have h2 : some (m', l.erase m') = some (m, rest) := h
    injection h2 with h3
    injection h3 with h4 h5
    subst h4
    subst h5
    exact ⟨minEntry_mem hm, rfl, minEntry_fst_le hm⟩

/-- `popMin` fails only on the empty heap. -/
theorem popMin_eq_none {l : List (Nat × Int × Int)} (h : popMin l = none) : l = [] := by
  cases l with
  | nil => rfl
  | cons a rest =>
    exfalso
    unfold popMin at h
    cases hm : minEntry (a :: rest) with
    | none =>
      unfold minEntry at hm
      cases hx : minEntry rest <;> rw [hx] at hm
      · exact Option.noConfusion hm
      · rename_i mm
        have hm2 : (if entryLt mm a = true then some mm else some a) = none := hm
        by_cases hb : entryLt mm a = true
        · rw [if_pos hb] at hm2
          exact Option.noConfusion hm2
        · rw [if_neg hb] at hm2
          exact Option.noConfusion hm2
    | some m =>
      rw [hm] at h
      have h2 : some (m, (a :: rest).erase m) = none := h
      exact Option.noConfusion h2

/-! Neighbour, heuristic and walk lemmas. -/

/-- Introduction rule for `neighborsOf` membership. -/
theorem neighborsOf_mem_intro (c r cols rows : Int) (d : Int × Int)
    (hd : d ∈ [((0 : Int), (-1 : Int)), (0, 1), (-1, 0), (1, 0)])
    (hb : 0 ≤ c + d.1 ∧ c + d.1 < cols ∧ 0 ≤ r + d.2 ∧ r + d.2 < rows) :
    (c + d.1, r + d.2) ∈ neighborsOf c r cols rows := by
  unfold neighborsOf
  rw [List.mem_filterMap]
  exact ⟨d, hd, by rw [if_pos hb]⟩

/-- Elimination rule for `neighborsOf` membership. -/
theorem neighborsOf_mem_elim {c r cols rows : Int} {y : Int × Int}
    (h : y ∈ neighborsOf c r cols rows) :
    ∃ d ∈ [((0 : Int), (-1 : Int)), (0, 1), (-1, 0), (1, 0)],
      y = (c + d.1, r + d.2) ∧ 0 ≤ y.1 ∧ y.1 < cols ∧ 0 ≤ y.2 ∧ y.2 < rows := by
  unfold neighborsOf at h
  rw [List.mem_filterMap] at h
  obtain ⟨d, hd, hf⟩ := h
  by_cases hb : 0 ≤ c + d.1 ∧ c + d.1 < cols ∧ 0 ≤ r + d.2 ∧ r + d.2 < rows
  · rw [if_pos hb] at hf
    injection hf with hf'
    subst hf'
    exact ⟨d, hd, rfl, hb.1, hb.2.1, hb.2.2.1, hb.2.2.2⟩
  · rw [if_neg hb] at hf
    exact Option.noConfusion hf

/-- A cell is not its own neighbour. -/
theorem not_self_neighborsOf (n : Int × Int) (cols rows : Int) :
    n ∉ neighborsOf n.1 n.2 cols rows := by
  intro h
  obtain ⟨d, hd, he, _⟩ := neighborsOf_mem_elim h
  rw [Prod.ext_iff] at he
  simp only [List.mem_cons, List.not_mem_nil, or_false] at hd
  rcases hd with rfl | rfl | rfl | rfl <;> omega

/-- `okNbrs` membership unfolds to `neighborsOf` plus walkability. -/
theorem mem_okNbrs {walkable : List (List Bool)} {cols rows : Int} {n y : Int × Int} :
    y ∈ okNbrs walkable cols rows n ↔
      y ∈ neighborsOf n.1 n.2 cols rows ∧ gridAt walkable y.1 y.2 = true := by
  unfold okNbrs
  rw [List.mem_filter]

/-- Members of `okNbrs` are ok cells. -/
theorem okNbrs_okCell {walkable : List (List Bool)} {cols rows : Int} {n y : Int × Int}
    (h : y ∈ okNbrs walkable cols rows n) : okCell walkable cols rows y := by
  rw [mem_okNbrs] at h
  obtain ⟨d, _, _, hb⟩ := neighborsOf_mem_elim h.1
  exact ⟨hb.1, hb.2.1, hb.2.2.1, hb.2.2.2, h.2⟩

/-- The Manhattan heuristic vanishes at the goal. -/
theorem heuristic_self (n : Int × Int) : heuristic n n = 0 := by
  unfold heuristic
  simp

/-- Triangle inequality step for the Manhattan heuristic. -/
theorem heuristic_triangle (x y t : Int × Int) :
    heuristic x t ≤ heuristic y t + ((x.1 - y.1).natAbs + (x.2 - y.2).natAbs) := by
  unfold heuristic
  have h1 : (x.1 - t.1).natAbs ≤ (x.1 - y.1).natAbs + (y.1 - t.1).natAbs := by
    have h := Int.natAbs_add_le (x.1 - y.1) (y.1 - t.1)
    rw [show x.1 - y.1 + (y.1 - t.1) = x.1 - t.1 by ring] at h
    exact h
  have h2 : (x.2 - t.2).natAbs ≤ (x.2 - y.2).natAbs + (y.2 - t.2).natAbs := by
    have h := Int.natAbs_add_le (x.2 - y.2) (y.2 - t.2)
    rw [show x.2 - y.2 + (y.2 - t.2) = x.2 - t.2 by ring] at h
    exact h
  omega

/-- Stepping to a neighbour changes the heuristic by at most one. -/
theorem heuristic_adj {n : Int × Int} {cols rows : Int} {y : Int × Int} (t : Int × Int)
    (h : y ∈ neighborsOf n.1 n.2 cols rows) : heuristic n t ≤ heuristic y t + 1 := by
  obtain ⟨d, hd, he, _⟩ := neighborsOf_mem_elim h
  have htr := heuristic_triangle n y t
  have hy1 : y.1 = n.1 + d.1 := by rw [he]
  have hy2 : y.2 = n.2 + d.2 := by rw [he]
  simp only [List.mem_cons, List.not_mem_nil, or_false] at hd
  have habs : (n.1 - y.1).natAbs + (n.2 - y.2).natAbs = 1 := by
    rcases hd with rfl | rfl | rfl | rfl <;> (rw [hy1, hy2]; simp)
  omega

/-- Unfolding `validWalk` on the empty waypoint list. -/
theorem validWalk_nil {walkable : List (List Bool)} {cols rows : Int} {s t : Int × Int} :
    validWalk walkable cols rows s [] t = true ↔ s = t := by
  unfold validWalk
  simp

/-- Unfolding `validWalk` on a cons. -/
theorem validWalk_cons {walkable : List (List Bool)} {cols rows : Int}
    {s t x : Int × Int} {xs : List (Int × Int)} :
    validWalk walkable cols rows s (x :: xs) t = true ↔
      x ∈ okNbrs walkable cols rows s ∧ validWalk walkable cols rows x xs t = true := by
  have h : validWalk walkable cols rows s (x :: xs) t
      = ((okNbrs walkable cols rows s).contains x && validWalk walkable cols rows x xs t) := rfl
  rw [h, Bool.and_eq_true]
  simp

/-- A valid walk extends by one ok step. -/
theorem validWalk_snoc {walkable : List (List Bool)} {cols rows : Int} :
    ∀ {p : List (Int × Int)} {s t x : Int × Int},
      validWalk walkable cols rows s p t = true → x ∈ okNbrs walkable cols rows t →
      validWalk walkable cols rows s (p ++ [x]) x = true := by
  intro p
  induction p with
  | nil =>
    intro s t x h hx
    rw [validWalk_nil] at h
    subst h
    rw [List.nil_append, validWalk_cons]
    exact ⟨hx, validWalk_nil.mpr rfl⟩
  | cons b bs ih =>
    intro s t x h hx
    rw [validWalk_cons] at h
    rw [List.cons_append, validWalk_cons]
    exact ⟨h.1, ih h.2 hx⟩

/-- A valid walk is at least as long as the Manhattan distance. -/
theorem validWalk_manhattan {walkable : List (List Bool)} {cols rows : Int} :
    ∀ {p : List (Int × Int)} {s t : Int × Int},
      validWalk walkable cols rows s p t = true → heuristic s t ≤ p.length := by
  intro p
  induction p with
  | nil =>
    intro s t h
    rw [validWalk_nil] at h
    subst h
    rw [heuristic_self]
    simp
  | cons b bs ih =>
    intro s t h
    rw [validWalk_cons] at h
    have h1 := heuristic_adj t (mem_okNbrs.mp h.1).1
    have h2 := ih h.2
    simp only [List.length_cons]
    omega

/-- The number of recorded `g` scores is bounded by the grid size plus one. -/
theorem g_score_length_le {walkable : List (List Bool)} {cols rows : Int}
    {start : Int × Int} {st : AStarState}
    (hnd : (st.g_score.map Prod.fst).Nodup)
    (hok : ∀ pr ∈ st.g_score, pr.1 = start ∨ okCell walkable cols rows pr.1) :
    st.g_score.length ≤ rows.toNat * cols.toNat + 1 := by
  have hlen : (st.g_score.map Prod.fst).length = st.g_score.length := List.length_map _ _
  have hcard : (st.g_score.map Prod.fst).toFinset.card
      = (st.g_score.map Prod.fst).length := List.toFinset_card_of_nodup hnd
  have hsub : (st.g_score.map Prod.fst).toFinset ⊆
      insert start ((Finset.Ico (0 : Int) cols) ×ˢ (Finset.Ico (0 : Int) rows)) := by
    intro k hk
    rw [List.mem_toFinset, List.mem_map] at hk
    obtain ⟨pr, hpr, hprk⟩ := hk
    rcases hok pr hpr with hs | hsk
    · rw [Finset.mem_insert]
      exact Or.inl (hprk ▸ hs)
    · rw [Finset.mem_insert]
      right
      rw [Finset.mem_product, Finset.mem_Ico, Finset.mem_Ico]
      rw [← hprk]
      exact ⟨⟨hsk.1, hsk.2.1⟩, ⟨hsk.2.2.1, hsk.2.2.2.1⟩⟩
  have hbound := Finset.card_le_card hsub
  have hins : (insert start ((Finset.Ico (0 : Int) cols) ×ˢ (Finset.Ico (0 : Int) rows))).card
      ≤ ((Finset.Ico (0 : Int) cols) ×ˢ (Finset.Ico (0 : Int) rows)).card + 1 :=
    Finset.card_insert_le _ _
  have hprod : ((Finset.Ico (0 : Int) cols) ×ˢ (Finset.Ico (0 : Int) rows)).card
      = cols.toNat * rows.toNat := by
    rw [Finset.card_product, Int.card_Ico, Int.card_Ico]
    simp
  have hcomm : cols.toNat * rows.toNat = rows.toNat * cols.toNat := Nat.mul_comm _ _
  omega

/-- The inserted pair is a member of `insertA`. -/
theorem insertA_self_mem {α : Type} (l : List ((Int × Int) × α)) (k : Int × Int) (v : α) :
    (k, v) ∈ insertA l k v :=
  lookupA_mem (lookupA_insertA_self l k v)

/-- Pairs with other keys survive `insertA`. -/
theorem mem_insertA_of_ne {α : Type} {l : List ((Int × Int) × α)} {k' : Int × Int}
    {v' : α} (k : Int × Int) (v : α) (hm : (k', v') ∈ l) (hne : k' ≠ k) :
    (k', v') ∈ insertA l k v := by
  unfold insertA
  split
  · rw [List.mem_map]
    refine ⟨(k', v'), hm, ?_⟩
    rw [if_neg (by simpa using hne)]
  · exact List.mem_append_left _ hm

/-- `lookupA` is defined iff the underlying `find?` is. -/
theorem lookupA_isSome {α : Type} (l : List ((Int × Int) × α)) (k : Int × Int) :
    (lookupA l k).isSome = (l.find? (fun p => p.1 == k)).isSome := by
  unfold lookupA
  cases l.find? (fun p => p.1 == k) <;> rfl

/-- Sum bookkeeping for a present-key `insertA` on the scores. -/
theorem sum_snd_insertA_present {l : List ((Int × Int) × Nat)} {k : Int × Int}
    {gOld : Nat} (v : Nat) (hnd : (l.map Prod.fst).Nodup) (hm : (k, gOld) ∈ l) :
    ((insertA l k v).map Prod.snd).sum + gOld = (l.map Prod.snd).sum + v := by
  have hpresent : (l.find? (fun p => p.1 == k)).isSome = true := by
    rw [← lookupA_isSome, mem_lookupA hnd hm]
    rfl
  unfold insertA
  rw [if_pos hpresent]
  clear hpresent
  induction l with
  | nil => cases hm
  | cons a rest ih =>
    rw [List.map_cons, List.nodup_cons] at hnd
    rcases List.mem_cons.mp hm with he | hm'
    · subst he
      rw [List.map_cons, List.map_cons]
      have hself : (((k, gOld).1 == k)) = true := by simp
      rw [if_pos hself]
      have hrest : rest.map (fun p => if p.1 == k then (k, v) else p) = rest := by
        have hcg : ∀ p ∈ rest, (if p.1 == k then (k, v) else p) = p := by
          intro p hp
          have hnk : ¬ ((p.1 == k) = true) := by
            intro hpk
            have hk1 : p.1 = k := by simpa using hpk
            refine hnd.1 ?_
            rw [← hk1]
            exact List.mem_map.mpr ⟨p, hp, rfl⟩
          rw [if_neg hnk]
        rw [List.map_congr_left hcg, List.map_id']
      rw [hrest]
      simp only [List.map_cons, List.sum_cons]
      omega
    · have hak : (a.1 == k) = false := by
        refine beq_eq_false_iff_ne.mpr ?_
        intro he
        exact hnd.1 (he ▸ List.mem_map_of_mem Prod.fst hm')
      rw [List.map_cons, if_neg (by simp [hak])]
      simp only [List.map_cons, List.sum_cons]
      have := ih hnd.2 hm'
      omega

/-- Nodup of a single append. -/
theorem nodup_append_singleton {α : Type} {l : List α} {a : α}
    (hnd : l.Nodup) (hna : a ∉ l) : (l ++ [a]).Nodup := by
  rw [List.nodup_append]
  exact ⟨hnd, List.nodup_singleton a, by simpa using hna⟩

/-- A member pair makes the keyed `find?` succeed. -/
theorem mem_find_isSome {α : Type} {l : List ((Int × Int) × α)} {k : Int × Int} {v : α}
    (hm : (k, v) ∈ l) : (l.find? (fun p => p.1 == k)).isSome = true := by
  rw [List.find?_isSome]
  exact ⟨(k, v), hm, by simp⟩

/-- A key in the key list makes the keyed `find?` succeed. -/
theorem key_mem_find_isSome {α : Type} {l : List ((Int × Int) × α)} {k : Int × Int}
    (hm : k ∈ l.map Prod.fst) : (l.find? (fun p => p.1 == k)).isSome = true := by
  rw [List.mem_map] at hm
  obtain ⟨pr, hpr, hk⟩ := hm
  rw [List.find?_isSome]
  exact ⟨pr, hpr, by simp [hk]⟩

/-- The push case of one A* relaxation from the popped node `z0` with score
`gz` to the walkable neighbour `n` (the tentative score strictly improves):
the suspended invariant is preserved and the termination measure does not
increase. -/
theorem relax_push {walkable : List (List Bool)} {cols rows : Int}
    {start goal : Int × Int} {z0 n : Int × Int} {gz : Nat} {acc : AStarState}
    (hinv : AInvX walkable cols rows start goal (some z0) acc)
    (hgz : lookupA acc.g_score z0 = some gz)
    (hn : n ∈ okNbrs walkable cols rows z0)
    (hcond : ∀ gOld, lookupA acc.g_score n = some gOld → gz + 1 < gOld) :
    AInvX walkable cols rows start goal (some z0)
      ⟨acc.open_set ++ [(gz + 1 + heuristic n goal, n)],
       insertA acc.came_from n z0, insertA acc.g_score n (gz + 1)⟩ ∧
    aPhi (rows.toNat * cols.toNat + 1)
      ⟨acc.open_set ++ [(gz + 1 + heuristic n goal, n)],
       insertA acc.came_from n z0, insertA acc.g_score n (gz + 1)⟩ ≤
      aPhi (rows.toNat * cols.toNat + 1) acc := by
  have hz0n : z0 ≠ n := by
    intro he
    exact not_self_neighborsOf z0 cols rows (he ▸ (mem_okNbrs.mp hn).1)
  have hns : n ≠ start := by
    intro he
    have := hcond 0 (he ▸ hinv.start_g)
    omega
  have hz0mem : (z0, gz) ∈ acc.g_score := lookupA_mem hgz
  have hgzlt : gz < acc.g_score.length := hinv.g_lt _ hz0mem
  have hlen_mono : acc.g_score.length ≤ (insertA acc.g_score n (gz + 1)).length := by
    rw [insertA_length]
    split <;> omega
  have hinvNew : AInvX walkable cols rows start goal (some z0)
      ⟨acc.open_set ++ [(gz + 1 + heuristic n goal, n)],
       insertA acc.came_from n z0, insertA acc.g_score n (gz + 1)⟩ := by
    refine ⟨?_, ?_, ?_, ?_, ?_, ?_, ?_, ?_, ?_, ?_, ?_, ?_⟩
    · -- start_g
      show lookupA (insertA acc.g_score n (gz + 1)) start = some 0
      rw [lookupA_insertA_ne _ _ _ _ (Ne.symm hns)]
      exact hinv.start_g
    · -- keys_nodup
      show ((insertA acc.g_score n (gz + 1)).map Prod.fst).Nodup
      by_cases hpres : (acc.g_score.find? (fun p => p.1 == n)).isSome = true
      · rw [insertA_keys_present _ _ _ hpres]
        exact hinv.keys_nodup
      · have hpres' : (acc.g_score.find? (fun p => p.1 == n)).isSome = false := by
          cases hx : (acc.g_score.find? (fun p => p.1 == n)).isSome
          · rfl
          · exact absurd hx hpres
        rw [insertA_keys_absent _ _ _ hpres']
        refine nodup_append_singleton hinv.keys_nodup ?_
        intro hk
        exact hpres (key_mem_find_isSome hk)
    · -- keys_ok
      intro pr hpr
      rcases mem_insertA hpr with he | ⟨hold, _⟩
      · rw [he]
        exact Or.inr (okNbrs_okCell hn)
      · exact hinv.keys_ok pr hold
    · -- g_lt
      intro pr hpr
      show pr.2 < (insertA acc.g_score n (gz + 1)).length
      rcases mem_insertA hpr with he | ⟨hold, _⟩
      · rw [he]
        by_cases hpres : (acc.g_score.find? (fun p => p.1 == n)).isSome = true
        · have hsome : (lookupA acc.g_score n).isSome = true := by
            rw [lookupA_isSome]
            exact hpres
          obtain ⟨gOld, hgOld⟩ := Option.isSome_iff_exists.mp hsome
          have h1 := hcond gOld hgOld
          have h2 := hinv.g_lt _ (lookupA_mem hgOld)
          omega
        · have hpres' : (acc.g_score.find? (fun p => p.1 == n)).isSome = false := by
            cases hx : (acc.g_score.find? (fun p => p.1 == n)).isSome
            · rfl
            · exact absurd hx hpres
          have : (insertA acc.g_score n (gz + 1)).length = acc.g_score.length + 1 := by
            rw [insertA_length, if_neg (by simp [hpres'])]
          rw [this]
          omega
      · have := hinv.g_lt pr hold
        omega
    · -- heap_keyed
      intro e he
      rcases List.mem_append.mp he with h1 | h1
      · obtain ⟨g, hg⟩ := hinv.heap_keyed e h1
        by_cases hen : e.2 = n
        · exact ⟨gz + 1, by rw [hen, lookupA_insertA_self]⟩
        · exact ⟨g, by rw [lookupA_insertA_ne _ _ _ _ hen]; exact hg⟩
      · rw [List.mem_singleton] at h1
        refine ⟨gz + 1, ?_⟩
        rw [h1]
        exact lookupA_insertA_self _ _ _
    · -- heap_goal
      intro e he heg
      rcases List.mem_append.mp he with h1 | h1
      · obtain ⟨gg, hgg, hle⟩ := hinv.heap_goal e h1 heg
        by_cases hgn : goal = n
        · refine ⟨gz + 1, by rw [hgn]; exact lookupA_insertA_self _ _ _, ?_⟩
          have := hcond gg (hgn ▸ hgg)
          omega
        · exact ⟨gg, by rw [lookupA_insertA_ne _ _ _ _ hgn]; exact hgg, hle⟩
      · rw [List.mem_singleton] at h1
        have hgn : goal = n := by rw [h1] at heg; exact heg.symm
        refine ⟨gz + 1, by rw [hgn]; exact lookupA_insertA_self _ _ _, ?_⟩
        rw [h1]
        exact Nat.le_add_right _ _
    · -- relaxed
      intro m gm hgm hmz
      by_cases hmn : m = n
      · subst hmn
        rw [lookupA_insertA_self] at hgm
        injection hgm with hgm'
        left
        refine ⟨gz + 1 + heuristic m goal, List.mem_append_right _ (by simp), ?_⟩
        omega
      · rw [lookupA_insertA_ne _ _ _ _ hmn] at hgm
        rcases hinv.relaxed m gm hgm hmz with ⟨f, hf, hfle⟩ | hall
        · exact Or.inl ⟨f, List.mem_append_left _ hf, hfle⟩
        · right
          intro y hy
          obtain ⟨gy, hgy, hgyle⟩ := hall y hy
          by_cases hyn : y = n
          · refine ⟨gz + 1, by rw [hyn]; exact lookupA_insertA_self _ _ _, ?_⟩
            have := hcond gy (hyn ▸ hgy)
            omega
          · exact ⟨gy, by rw [lookupA_insertA_ne _ _ _ _ hyn]; exact hgy, hgyle⟩
    · -- goal_entry
      intro gg hgg
      by_cases hgn : goal = n
      · exact ⟨gz + 1 + heuristic n goal,
          List.mem_append_right _ (by rw [hgn]; simp)⟩
      · rw [lookupA_insertA_ne _ _ _ _ hgn] at hgg
        obtain ⟨f, hf⟩ := hinv.goal_entry gg hgg
        exact ⟨f, List.mem_append_left _ hf⟩
    · -- cf_edge
      intro pr hpr
      rcases mem_insertA hpr with he | ⟨hold, hne⟩
      · refine ⟨gz + 1, gz, ?_, ?_, ?_, ?_⟩
        · rw [he]
          exact lookupA_insertA_self _ _ _
        · rw [he]
          show lookupA (insertA acc.g_score n (gz + 1)) z0 = some gz
          rw [lookupA_insertA_ne _ _ _ _ hz0n]
          exact hgz
        · omega
        · rw [he]
          exact hn
      · obtain ⟨gn1, gp1, h1, h2, h3, h4⟩ := hinv.cf_edge pr hold
        by_cases hp2n : pr.2 = n
        · refine ⟨gn1, gz + 1, ?_, ?_, ?_, h4⟩
          · rw [lookupA_insertA_ne _ _ _ _ hne]
            exact h1
          · rw [hp2n]
            exact lookupA_insertA_self _ _ _
          · have := hcond gp1 (hp2n ▸ h2)
            omega
        · refine ⟨gn1, gp1, ?_, ?_, h3, h4⟩
          · rw [lookupA_insertA_ne _ _ _ _ hne]
            exact h1
          · rw [lookupA_insertA_ne _ _ _ _ hp2n]
            exact h2
    · -- cf_total
      intro pr hpr
      rcases mem_insertA hpr with he | ⟨hold, hne⟩
      · right
        refine ⟨z0, ?_⟩
        have : pr.1 = n := by rw [he]
        rw [this]
        exact insertA_self_mem _ _ _
      · rcases hinv.cf_total pr hold with hs | ⟨q, hq⟩
        · exact Or.inl hs
        · exact Or.inr ⟨q, mem_insertA_of_ne n z0 hq hne⟩
    · -- cf_nostart
      intro pr hpr
      rcases mem_insertA hpr with he | ⟨hold, _⟩
      · rw [he]
        exact hns
      · exact hinv.cf_nostart pr hold
    · -- cf_count
      show (insertA acc.g_score n (gz + 1)).length = (insertA acc.came_from n z0).length + 1
      have hsync : (acc.g_score.find? (fun p => p.1 == n)).isSome
          = (acc.came_from.find? (fun p => p.1 == n)).isSome := by
        by_cases hg : (acc.g_score.find? (fun p => p.1 == n)).isSome = true
        · have hsome : (lookupA acc.g_score n).isSome = true := by
            rw [lookupA_isSome]; exact hg
          obtain ⟨gOld, hgOld⟩ := Option.isSome_iff_exists.mp hsome
          rcases hinv.cf_total _ (lookupA_mem hgOld) with hs | ⟨q, hq⟩
          · exact absurd hs hns
          · rw [hg, mem_find_isSome hq]
        · have hg' : (acc.g_score.find? (fun p => p.1 == n)).isSome = false := by
            cases hx : (acc.g_score.find? (fun p => p.1 == n)).isSome
            · rfl
            · exact absurd hx hg
          rw [hg']
          cases hc : (acc.came_from.find? (fun p => p.1 == n)).isSome
          · rfl
          · exfalso
            have : (lookupA acc.came_from n).isSome = true := by
              rw [lookupA_isSome]; exact hc
            obtain ⟨q, hq⟩ := Option.isSome_iff_exists.mp this
            obtain ⟨gn1, _, h1, _, _, _⟩ := hinv.cf_edge _ (lookupA_mem hq)
            have : (lookupA acc.g_score n).isSome = true := by rw [h1]; rfl
            rw [lookupA_isSome] at this
            exact hg this
      rw [insertA_length, insertA_length, hsync]
      have := hinv.cf_count
      split <;> omega
  refine ⟨hinvNew, ?_⟩
  -- the measure does not increase
  have hKbound : (insertA acc.g_score n (gz + 1)).length ≤ rows.toNat * cols.toNat + 1 :=
    g_score_length_le hinvNew.keys_nodup hinvNew.keys_ok
  have hheap : (acc.open_set ++ [(gz + 1 + heuristic n goal, n)]).length
      = acc.open_set.length + 1 := by simp
  have hphi : aPhi (rows.toNat * cols.toNat + 1)
      ⟨acc.open_set ++ [(gz + 1 + heuristic n goal, n)],
       insertA acc.came_from n z0, insertA acc.g_score n (gz + 1)⟩
    = ((insertA acc.g_score n (gz + 1)).map Prod.snd).sum
      + (acc.open_set ++ [(gz + 1 + heuristic n goal, n)]).length
      + (rows.toNat * cols.toNat + 1 - (insertA acc.g_score n (gz + 1)).length)
          * (rows.toNat * cols.toNat + 1 + 1) := rfl
  by_cases hpres : (acc.g_score.find? (fun p => p.1 == n)).isSome = true
  · -- replacement: the score sum strictly decreases
    have hsome : (lookupA acc.g_score n).isSome = true := by
      rw [lookupA_isSome]; exact hpres
    obtain ⟨gOld, hgOld⟩ := Option.isSome_iff_exists.mp hsome
    have hsum := sum_snd_insertA_present (gz + 1) hinv.keys_nodup (lookupA_mem hgOld)
    have himp := hcond gOld hgOld
    have hlen : (insertA acc.g_score n (gz + 1)).length = acc.g_score.length := by
      rw [insertA_length, if_pos hpres]
    rw [hphi]
    unfold aPhi
    rw [hheap, hlen]
    omega
  · -- new key: the heap grows by one but the key credit pays for it
    have hpres' : (acc.g_score.find? (fun p => p.1 == n)).isSome = false := by
      cases hx : (acc.g_score.find? (fun p => p.1 == n)).isSome
      · rfl
      · exact absurd hx hpres
    have hlen : (insertA acc.g_score n (gz + 1)).length = acc.g_score.length + 1 := by
      rw [insertA_length, if_neg (by simp [hpres'])]
    have hsum : ((insertA acc.g_score n (gz + 1)).map Prod.snd).sum
        = (acc.g_score.map Prod.snd).sum + (gz + 1) := by
      unfold insertA
      rw [if_neg (by simp [hpres'])]
      simp
    have hK1 : acc.g_score.length + 1 ≤ rows.toNat * cols.toNat + 1 := by
      rw [← hlen]
      exact hKbound
    have hsplit : (rows.toNat * cols.toNat + 1 - acc.g_score.length)
          * (rows.toNat * cols.toNat + 1 + 1)
        = (rows.toNat * cols.toNat + 1 - (acc.g_score.length + 1))
            * (rows.toNat * cols.toNat + 1 + 1) + (rows.toNat * cols.toNat + 1 + 1) := by
      have h1 : rows.toNat * cols.toNat + 1 - acc.g_score.length
          = (rows.toNat * cols.toNat + 1 - (acc.g_score.length + 1)) + 1 := by omega
      rw [h1, Nat.succ_mul]
    rw [hphi]
    unfold aPhi
    rw [hheap, hlen, hsum, hsplit]
    have hgzK : gz + 1 ≤ rows.toNat * cols.toNat := by omega
    omega

/-- One A* relaxation (line 54-62 body) from the popped node `z0` to the
walkable neighbour `n`: the suspended invariant is preserved, `z0`'s score is
unchanged, `n` ends with a score `≤ gz + 1`, no recorded score increases, and
the termination measure does not increase. -/
theorem relax_step {walkable : List (List Bool)} {cols rows : Int}
    {start goal : Int × Int} {z0 n : Int × Int} {gz : Nat} {acc : AStarState}
    (hinv : AInvX walkable cols rows start goal (some z0) acc)
    (hgz : lookupA acc.g_score z0 = some gz)
    (hn : n ∈ okNbrs walkable cols rows z0) :
    AInvX walkable cols rows start goal (some z0) (relaxNeighbor goal z0 acc n) ∧
    lookupA (relaxNeighbor goal z0 acc n).g_score z0 = some gz ∧
    (∃ gn, lookupA (relaxNeighbor goal z0 acc n).g_score n = some gn ∧ gn ≤ gz + 1) ∧
    (∀ m gm, lookupA acc.g_score m = some gm →
      ∃ gm', lookupA (relaxNeighbor goal z0 acc n).g_score m = some gm' ∧ gm' ≤ gm) ∧
    aPhi (rows.toNat * cols.toNat + 1) (relaxNeighbor goal z0 acc n)
      ≤ aPhi (rows.toNat * cols.toNat + 1) acc := by
  have hz0n : z0 ≠ n := by
    intro he
    exact not_self_neighborsOf z0 cols rows (he ▸ (mem_okNbrs.mp hn).1)
  cases hlook : lookupA acc.g_score n with
  | none =>
    have hcond : ∀ gOld, lookupA acc.g_score n = some gOld → gz + 1 < gOld := by
      intro g0 hg0
      rw [hlook] at hg0
      exact Option.noConfusion hg0
    have hres : relaxNeighbor goal z0 acc n =
        ⟨acc.open_set ++ [(gz + 1 + heuristic n goal, n)],
         insertA acc.came_from n z0, insertA acc.g_score n (gz + 1)⟩ := by
      unfold relaxNeighbor
      rw [hgz, hlook]
      rfl
    obtain ⟨hi, hphi⟩ := relax_push hinv hgz hn hcond
    rw [hres]
    refine ⟨hi, ?_, ?_, ?_, hphi⟩
    · show lookupA (insertA acc.g_score n (gz + 1)) z0 = some gz
      rw [lookupA_insertA_ne _ _ _ _ hz0n]
      exact hgz
    · exact ⟨gz + 1, lookupA_insertA_self _ _ _, le_refl _⟩
    · intro m gm hgm
      by_cases hmn : m = n
      · subst hmn
        rw [hlook] at hgm
        exact Option.noConfusion hgm
      · exact ⟨gm, by rw [lookupA_insertA_ne _ _ _ _ hmn]; exact hgm, le_refl _⟩
  | some gOld =>
    by_cases hbet : gz + 1 < gOld
    · have hcond : ∀ g0, lookupA acc.g_score n = some g0 → gz + 1 < g0 := by
        intro g0 hg0
        rw [hlook] at hg0
        injection hg0 with h
        omega
      have hb : (decide (gz + 1 < gOld)) = true := decide_eq_true hbet
      have hres : relaxNeighbor goal z0 acc n =
          ⟨acc.open_set ++ [(gz + 1 + heuristic n goal, n)],
           insertA acc.came_from n z0, insertA acc.g_score n (gz + 1)⟩ := by
        unfold relaxNeighbor
        rw [hgz, hlook]
        show (if (decide (gz + 1 < gOld)) = true then _ else _) = _
        rw [if_pos hb]
        rfl
      obtain ⟨hi, hphi⟩ := relax_push hinv hgz hn hcond
      rw [hres]
      refine ⟨hi, ?_, ?_, ?_, hphi⟩
      · show lookupA (insertA acc.g_score n (gz + 1)) z0 = some gz
        rw [lookupA_insertA_ne _ _ _ _ hz0n]
        exact hgz
      · exact ⟨gz + 1, lookupA_insertA_self _ _ _, le_refl _⟩
      · intro m gm hgm
        by_cases hmn : m = n
        · subst hmn
          rw [hlook] at hgm
          injection hgm with h
          exact ⟨gz + 1, lookupA_insertA_self _ _ _, by omega⟩
        · exact ⟨gm, by rw [lookupA_insertA_ne _ _ _ _ hmn]; exact hgm, le_refl _⟩
    · have hb : (decide (gz + 1 < gOld)) = false := decide_eq_false hbet
      have hres : relaxNeighbor goal z0 acc n = acc := by
        unfold relaxNeighbor
        rw [hgz, hlook]
        show (if (decide (gz + 1 < gOld)) = true then _ else _) = _
        rw [if_neg (by simp [hb])]
      rw [hres]
      exact ⟨hinv, hgz, ⟨gOld, hlook, by omega⟩,
        fun m gm h => ⟨gm, h, le_refl _⟩, le_refl _⟩

/-- The whole neighbour pass of one A* iteration (the `for` loop of lines
53-62), folded over any sublist of `z0`'s in-bounds neighbours: the suspended
invariant and `z0`'s score are preserved, scores never increase, every
walkable neighbour in the list ends with a score `≤ gz + 1`, and the
termination measure does not increase. -/
theorem relax_fold {walkable : List (List Bool)} {cols rows : Int}
    {start goal : Int × Int} {z0 : Int × Int} {gz : Nat}
    (L : List (Int × Int)) {acc : AStarState}
    (hinv : AInvX walkable cols rows start goal (some z0) acc)
    (hgz : lookupA acc.g_score z0 = some gz)
    (hL : ∀ n ∈ L, n ∈ neighborsOf z0.1 z0.2 cols rows) :
    AInvX walkable cols rows start goal (some z0)
      (L.foldl (fun a n =>
        if gridAt walkable n.1 n.2 then relaxNeighbor goal z0 a n else a) acc) ∧
    lookupA (L.foldl (fun a n =>
        if gridAt walkable n.1 n.2 then relaxNeighbor goal z0 a n else a) acc).g_score z0
      = some gz ∧
    (∀ m gm, lookupA acc.g_score m = some gm →
      ∃ gm', lookupA (L.foldl (fun a n =>
        if gridAt walkable n.1 n.2 then relaxNeighbor goal z0 a n else a) acc).g_score m
          = some gm' ∧ gm' ≤ gm) ∧
    (∀ n ∈ L, gridAt walkable n.1 n.2 = true →
      ∃ gn, lookupA (L.foldl (fun a n =>
        if gridAt walkable n.1 n.2 then relaxNeighbor goal z0 a n else a) acc).g_score n
          = some gn ∧ gn ≤ gz + 1) ∧
    aPhi (rows.toNat * cols.toNat + 1) (L.foldl (fun a n =>
        if gridAt walkable n.1 n.2 then relaxNeighbor goal z0 a n else a) acc)
      ≤ aPhi (rows.toNat * cols.toNat + 1) acc := by
  induction L generalizing acc with
  | nil =>
    exact ⟨hinv, hgz, fun m gm h => ⟨gm, h, le_refl _⟩,
      fun n hn => absurd hn (List.not_mem_nil n), le_refl _⟩
  | cons x xs ih =>
    simp only [List.foldl_cons]
    by_cases hgx : gridAt walkable x.1 x.2 = true
    · rw [if_pos hgx]
      have hxn : x ∈ okNbrs walkable cols rows z0 :=
        List.mem_filter.mpr ⟨hL x (List.mem_cons_self x xs), by simpa using hgx⟩
      obtain ⟨hi1, hz1, ⟨gx, hgxr, hgxle⟩, hmono1, hphi1⟩ := relax_step hinv hgz hxn
      obtain ⟨hi2, hz2, hmono2, hrel2, hphi2⟩ :=
        ih hi1 hz1 (fun n hn => hL n (List.mem_cons_of_mem x hn))
      refine ⟨hi2, hz2, ?_, ?_, le_trans hphi2 hphi1⟩
      · intro m gm hgm
        obtain ⟨gm1, h1, h2⟩ := hmono1 m gm hgm
        obtain ⟨gm2, h3, h4⟩ := hmono2 m gm1 h1
        exact ⟨gm2, h3, le_trans h4 h2⟩
      · intro n hn hgridn
        rcases List.mem_cons.mp hn with he | hxs
        · subst he
          obtain ⟨g2, h3, h4⟩ := hmono2 n gx hgxr
          exact ⟨g2, h3, le_trans h4 hgxle⟩
        · exact hrel2 n hxs hgridn
    · rw [if_neg hgx]
      obtain ⟨hi2, hz2, hmono2, hrel2, hphi2⟩ :=
        ih hinv hgz (fun n hn => hL n (List.mem_cons_of_mem x hn))
      refine ⟨hi2, hz2, hmono2, ?_, hphi2⟩
      intro n hn hgridn
      rcases List.mem_cons.mp hn with he | hxs
      · subst he
        exact absurd hgridn hgx
      · exact hrel2 n hxs hgridn

/-- After the neighbour pass has recorded a score `≤ gz + 1` for every
walkable neighbour of the suspended node `z0`, the full invariant holds
again. -/
theorem AInv_of_suspended {walkable : List (List Bool)} {cols rows : Int}
    {start goal : Int × Int} {z0 : Int × Int} {gz : Nat} {st : AStarState}
    (hinv : AInvX walkable cols rows start goal (some z0) st)
    (hgz : lookupA st.g_score z0 = some gz)
    (hrel : ∀ y ∈ okNbrs walkable cols rows z0,
      ∃ gy, lookupA st.g_score y = some gy ∧ gy ≤ gz + 1) :
    AInvX walkable cols rows start goal none st := by
  refine ⟨hinv.start_g, hinv.keys_nodup, hinv.keys_ok, hinv.g_lt, hinv.heap_keyed,
    hinv.heap_goal, ?_, hinv.goal_entry, hinv.cf_edge, hinv.cf_total,
    hinv.cf_nostart, hinv.cf_count⟩
  intro n g hg _
  by_cases hnz : n = z0
  · subst hnz
    rw [hgz] at hg
    injection hg with h
    subst h
    exact Or.inr hrel
  · exact hinv.relaxed n g hg (by simp [hnz])

/-- Popping a non-goal entry from the heap preserves the invariant, suspended
at the popped node (lines 47-52). -/
theorem pop_suspend {walkable : List (List Bool)} {cols rows : Int}
    {start goal : Int × Int} {st : AStarState} {e : Nat × Int × Int}
    {rest : List (Nat × Int × Int)}
    (hinv : AInvX walkable cols rows start goal none st)
    (hpop : popMin st.open_set = some (e, rest))
    (hne : e.2 ≠ goal) :
    AInvX walkable cols rows start goal (some e.2) { st with open_set := rest } := by
  obtain ⟨hmem, hrest, hmin⟩ := popMin_spec hpop
  subst hrest
  have hsub : ∀ x ∈ st.open_set.erase e, x ∈ st.open_set :=
    fun x hx => List.mem_of_mem_erase hx
  refine ⟨hinv.start_g, hinv.keys_nodup, hinv.keys_ok, hinv.g_lt, ?_, ?_, ?_, ?_,
    hinv.cf_edge, hinv.cf_total, hinv.cf_nostart, hinv.cf_count⟩
  · intro x hx
    exact hinv.heap_keyed x (hsub x hx)
  · intro x hx hxg
    exact hinv.heap_goal x (hsub x hx) hxg
  · intro n g hg hnex
    have hnne : n ≠ e.2 := fun h => hnex (by rw [h])
    rcases hinv.relaxed n g hg (by simp) with ⟨f, hf, hfle⟩ | hall
    · left
      refine ⟨f, ?_, hfle⟩
      have hfe : (f, n) ≠ e := by
        intro hfe
        exact hnne (by rw [← hfe])
      exact (List.mem_erase_of_ne hfe).mpr hf
    · exact Or.inr hall
  · intro g hg
    obtain ⟨f, hf⟩ := hinv.goal_entry g hg
    refine ⟨f, ?_⟩
    have hfe : (f, goal) ≠ e := by
      intro hfe
      exact hne (by rw [← hfe])
    exact (List.mem_erase_of_ne hfe).mpr hf

/-- Frontier bound: along any valid walk from a scored node `s` to the goal,
either the goal is already scored within `base + |p|`, or the heap holds an
entry with `f`-value at most `base + |p|` (the standard A* admissibility
argument, using that the Manhattan heuristic never overestimates). -/
theorem frontier_bound {walkable : List (List Bool)} {cols rows : Int}
    {start goal : Int × Int} {st : AStarState}
    (hinv : AInvX walkable cols rows start goal none st) :
    ∀ (p : List (Int × Int)) (s : Int × Int) (base : Nat),
      lookupA st.g_score s = some base →
      validWalk walkable cols rows s p goal = true →
      (∃ gg, lookupA st.g_score goal = some gg ∧ gg ≤ base + p.length) ∨
      (∃ e ∈ st.open_set, e.1 ≤ base + p.length) := by
  intro p
  induction p with
  | nil =>
    intro s base hs hw
    rw [validWalk_nil] at hw
    subst hw
    exact Or.inl ⟨base, hs, by omega⟩
  | cons x xs ih =>
    intro s base hs hw
    rw [validWalk_cons] at hw
    obtain ⟨hx, hw'⟩ := hw
    rcases hinv.relaxed s base hs (by simp) with ⟨f, hf, hfle⟩ | hnb
    · right
      refine ⟨(f, s), hf, ?_⟩
      have hman : heuristic s goal ≤ (x :: xs).length :=
        validWalk_manhattan (by rw [validWalk_cons]; exact ⟨hx, hw'⟩)
      have hlen : (x :: xs).length = xs.length + 1 := rfl
      show f ≤ base + (x :: xs).length
      omega
    · obtain ⟨gx, hgx, hgxle⟩ := hnb x hx
      have hlen : (x :: xs).length = xs.length + 1 := rfl
      rcases ih x gx hgx hw' with ⟨gg, h1, h2⟩ | ⟨e, he, h2⟩
      · exact Or.inl ⟨gg, h1, by omega⟩
      · exact Or.inr ⟨e, he, by omega⟩

/-- `_reconstruct` soundness: with enough fuel, following the `came_from`
chain from any scored node `n` yields a valid walk from `start` to `n` whose
length is at most `n`'s recorded score. -/
theorem reconstruct_walk {walkable : List (List Bool)} {cols rows : Int}
    {start goal : Int × Int} {exz : Option (Int × Int)} {st : AStarState}
    (hinv : AInvX walkable cols rows start goal exz st) :
    ∀ (fuel : Nat) (n : Int × Int) (gn : Nat),
      lookupA st.g_score n = some gn → gn < fuel →
      validWalk walkable cols rows start (reconstructN fuel st.came_from n) n = true ∧
      (reconstructN fuel st.came_from n).length ≤ gn := by
  intro fuel
  induction fuel with
  | zero =>
    intro n gn _ h
    exact absurd h (Nat.not_lt_zero gn)
  | succ fuel ih =>
    intro n gn hgn hlt
    have hunf : reconstructN (fuel + 1) st.came_from n =
        match lookupA st.came_from n with
        | none => []
        | some prev => reconstructN fuel st.came_from prev ++ [n] := rfl
    cases hcf : lookupA st.came_from n with
    | none =>
      rw [hcf] at hunf
      have hret : reconstructN (fuel + 1) st.came_from n = [] := hunf
      rw [hret]
      have hnst : n = start := by
        rcases hinv.cf_total _ (lookupA_mem hgn) with hs | ⟨q, hq⟩
        · exact hs
        · exfalso
          have hq' := mem_find_isSome hq
          have hfn : (st.came_from.find? (fun p => p.1 == n)) = none := by
            have hm : (st.came_from.find? (fun p => p.1 == n)).map Prod.snd = none := hcf
            exact Option.map_eq_none'.mp hm
          rw [hfn] at hq'
          cases hq'
      constructor
      · rw [validWalk_nil]
        exact hnst.symm
      · simp
    | some prev =>
      rw [hcf] at hunf
      have hret : reconstructN (fuel + 1) st.came_from n
          = reconstructN fuel st.came_from prev ++ [n] := hunf
      obtain ⟨gn', gp, h1, h2, h3, h4⟩ := hinv.cf_edge _ (lookupA_mem hcf)
      have h1' : lookupA st.g_score n = some gn' := h1
      have h2' : lookupA st.g_score prev = some gp := h2
      have h4' : n ∈ okNbrs walkable cols rows prev := h4
      have hgn' : gn' = gn := by
        rw [hgn] at h1'
        injection h1' with h
        exact h.symm
      have hplt : gp < fuel := by omega
      obtain ⟨hv, hl⟩ := ih prev gp h2' hplt
      rw [hret]
      refine ⟨validWalk_snoc hv h4', ?_⟩
      have hlen : (reconstructN fuel st.came_from prev ++ [n]).length
          = (reconstructN fuel st.came_from prev).length + 1 := by simp
      omega

/-- Soundness and optimality of the main A* loop (lines 47-64): from any
invariant state with enough fuel, if some valid walk to the goal exists, the
loop returns a valid walk to the goal no longer than every valid walk. -/
theorem astarLoop_sound {walkable : List (List Bool)} {cols rows : Int}
    {start goal : Int × Int} :
    ∀ (fuel : Nat) (st : AStarState),
      AInvX walkable cols rows start goal none st →
      aPhi (rows.toNat * cols.toNat + 1) st < fuel →
      (∃ W0, validWalk walkable cols rows start W0 goal = true) →
      ∃ ret, astarLoop walkable cols rows goal fuel st = some ret ∧
        validWalk walkable cols rows start ret goal = true ∧
        ∀ W, validWalk walkable cols rows start W goal = true →
          ret.length ≤ W.length := by
  intro fuel
  induction fuel with
  | zero =>
    intro st _ hlt _
    exact absurd hlt (Nat.not_lt_zero _)
  | succ fuel ih =>
    intro st hinv hlt hreach
    have hunf : astarLoop walkable cols rows goal (fuel + 1) st =
        match popMin st.open_set with
        | none => some []
        | some (e, rest) =>
          if e.2 = goal then
            some (reconstructN (st.came_from.length + 1) st.came_from e.2)
          else
            astarLoop walkable cols rows goal fuel
              ((neighborsOf e.2.1 e.2.2 cols rows).foldl
                (fun acc n =>
                  if gridAt walkable n.1 n.2 then relaxNeighbor goal e.2 acc n else acc)
                { st with open_set := rest }) := rfl
    cases hpop : popMin st.open_set with
    | none =>
      exfalso
      have hempty : st.open_set = [] := popMin_eq_none hpop
      obtain ⟨W0, hW0⟩ := hreach
      rcases frontier_bound hinv W0 start 0 hinv.start_g hW0 with
        ⟨gg, h1, _⟩ | ⟨e', he', _⟩
      · obtain ⟨f, hf⟩ := hinv.goal_entry gg h1
        rw [hempty] at hf
        exact absurd hf (List.not_mem_nil _)
      · rw [hempty] at he'
        exact absurd he' (List.not_mem_nil _)
    | some pr =>
      obtain ⟨e, rest⟩ := pr
      rw [hpop] at hunf
      have hunf2 : astarLoop walkable cols rows goal (fuel + 1) st =
          (if e.2 = goal then
            some (reconstructN (st.came_from.length + 1) st.came_from e.2)
          else
            astarLoop walkable cols rows goal fuel
              ((neighborsOf e.2.1 e.2.2 cols rows).foldl
                (fun acc n =>
                  if gridAt walkable n.1 n.2 then relaxNeighbor goal e.2 acc n else acc)
                { st with open_set := rest })) := hunf
      obtain ⟨hmem, hrest, hmin⟩ := popMin_spec hpop
      by_cases hcg : e.2 = goal
      · rw [if_pos hcg, hcg] at hunf2
        obtain ⟨gg, hgg, hggle⟩ := hinv.heap_goal e hmem hcg
        have hggfuel : gg < st.came_from.length + 1 := by
          have h1 := hinv.g_lt _ (lookupA_mem hgg)
          have h2 := hinv.cf_count
          omega
        obtain ⟨hv, hl⟩ :=
          reconstruct_walk hinv (st.came_from.length + 1) goal gg hgg hggfuel
        refine ⟨reconstructN (st.came_from.length + 1) st.came_from goal,
          hunf2, hv, ?_⟩
        intro W hW
        rcases frontier_bound hinv W start 0 hinv.start_g hW with
          ⟨gg', h1, h2⟩ | ⟨e', he', h2⟩
        · have hsame : gg = gg' := by
            rw [hgg] at h1
            injection h1 with h
          omega
        · have h3 := hmin e' he'
          omega
      · rw [if_neg hcg] at hunf2
        have hinv' := pop_suspend hinv hpop hcg
        obtain ⟨gc, hgc⟩ := hinv.heap_keyed e hmem
        have hgc' : lookupA ({ st with open_set := rest } : AStarState).g_score e.2
            = some gc := hgc
        obtain ⟨hi2, hz2, hmono2, hrel2, hphi2⟩ :=
          relax_fold (neighborsOf e.2.1 e.2.2 cols rows) hinv' hgc' (fun n hn => hn)
        have hinv2 := AInv_of_suspended hi2 hz2 (fun y hy =>
          hrel2 y (mem_okNbrs.mp hy).1 (mem_okNbrs.mp hy).2)
        have hphiPop : aPhi (rows.toNat * cols.toNat + 1)
            ({ st with open_set := rest } : AStarState) + 1
            = aPhi (rows.toNat * cols.toNat + 1) st := by
          have hPop : aPhi (rows.toNat * cols.toNat + 1)
              ({ st with open_set := rest } : AStarState)
              = (st.g_score.map Prod.snd).sum + rest.length
                + (rows.toNat * cols.toNat + 1 - st.g_score.length)
                  * (rows.toNat * cols.toNat + 1 + 1) := rfl
          have hlenr : rest.length + 1 = st.open_set.length := by
            rw [hrest, List.length_erase_of_mem hmem]
            have := List.length_pos_of_mem hmem
            omega
          rw [hPop]
          unfold aPhi
          omega
        have hlt' : aPhi (rows.toNat * cols.toNat + 1)
            ((neighborsOf e.2.1 e.2.2 cols rows).foldl
              (fun acc n =>
                if gridAt walkable n.1 n.2 then relaxNeighbor goal e.2 acc n else acc)
              { st with open_set := rest }) < fuel := by
          omega
        obtain ⟨ret, hret, hvret, hminret⟩ := ih _ hinv2 hlt' hreach
        exact ⟨ret, by rw [hunf2]; exact hret, hvret, hminret⟩

/-- C7: for every walkability grid, in-bounds walkable goal tile, and start
tile from which the goal is reachable by 4-directional moves through walkable
tiles, `find_path` returns a waypoint path (start excluded) that is a valid
walk to the goal and is of minimal length among all such walks; the result is
a pure function of the inputs, so it is deterministic across repeated calls. -/
theorem find_path_shortest (walkable : List (List Bool)) (start goal : Int × Int)
    (hgoal : 0 ≤ goal.2 ∧ goal.2 < (walkable.length : Int) ∧ 0 ≤ goal.1 ∧
      goal.1 < ((walkable.headD []).length : Int) ∧
      gridAt walkable goal.1 goal.2 = true)
    (hreach : ∃ W0, validWalk walkable ((walkable.headD []).length : Int)
      (walkable.length : Int) start W0 goal = true) :
    ∃ ret, find_path walkable start goal = some ret ∧
      validWalk walkable ((walkable.headD []).length : Int) (walkable.length : Int)
        start ret goal = true ∧
      ∀ W, validWalk walkable ((walkable.headD []).length : Int) (walkable.length : Int)
        start W goal = true → ret.length ≤ W.length := by
  by_cases hsg : start = goal
  · refine ⟨[], ?_, ?_, ?_⟩
    · unfold find_path find_pathF
      rw [if_pos hsg]
    · rw [validWalk_nil]
      exact hsg
    · intro W _
      simp
  · have hlen0 : walkable.length ≠ 0 := by
      intro h0
      have h1 := hgoal.1
      have h2 := hgoal.2.1
      rw [h0] at h2
      omega
    have hdef : find_pathF walkable start goal (aStarFuel walkable) =
        (if start = goal then some []
         else
           match
             (if (0 ≤ goal.2 ∧ goal.2 < (walkable.length : Int) ∧ 0 ≤ goal.1 ∧
                  goal.1 < (if walkable.length ≠ 0 then
                    ((walkable.headD []).length : Int) else 0) ∧
                  gridAt walkable goal.1 goal.2 = true) then some (some goal)
              else nearestWalkableF walkable goal.1 goal.2 (walkable.length : Int)
                (if walkable.length ≠ 0 then ((walkable.headD []).length : Int) else 0)
                (aStarFuel walkable))
           with
           | none => none
           | some none => some []
           | some (some g) =>
             astarLoop walkable
               (if walkable.length ≠ 0 then ((walkable.headD []).length : Int) else 0)
               (walkable.length : Int) g (aStarFuel walkable)
               { open_set := [(0, start)], came_from := [], g_score := [(start, 0)] })
        := rfl
    rw [if_neg hsg] at hdef
    have hC : (if walkable.length ≠ 0 then ((walkable.headD []).length : Int) else 0)
        = ((walkable.headD []).length : Int) := if_pos hlen0
    rw [hC] at hdef
    rw [if_pos hgoal] at hdef
    have hdef2 : find_pathF walkable start goal (aStarFuel walkable) =
        astarLoop walkable ((walkable.headD []).length : Int) (walkable.length : Int)
          goal (aStarFuel walkable)
          ⟨[(0, start)], [], [(start, 0)]⟩ := hdef
    have hinv0 : AInvX walkable ((walkable.headD []).length : Int)
        (walkable.length : Int) start goal none
        ⟨[(0, start)], [], [(start, 0)]⟩ := by
      refine ⟨?_, ?_, ?_, ?_, ?_, ?_, ?_, ?_, ?_, ?_, ?_, ?_⟩
      · exact mem_lookupA (by simp) (by simp)
      · simp
      · intro pr hpr
        rw [List.mem_singleton] at hpr
        rw [hpr]
        exact Or.inl rfl
      · intro pr hpr
        rw [List.mem_singleton] at hpr
        rw [hpr]
        simp
      · intro x hx
        rw [List.mem_singleton] at hx
        rw [hx]
        exact ⟨0, mem_lookupA (by simp) (by simp)⟩
      · intro x hx hxg
        rw [List.mem_singleton] at hx
        subst hx
        exact absurd hxg hsg
      · intro n g hg _
        by_cases hb : start = n
        · subst hb
          exact Or.inl ⟨0, by simp, Nat.zero_le _⟩
        · exfalso
          have hnone : lookupA [(start, (0 : Nat))] n = none := by
            rw [lookupA_eq_none]
            intro pr hpr
            rw [List.mem_singleton] at hpr
            rw [hpr]
            exact hb
          rw [hnone] at hg
          cases hg
      · intro g hg
        exfalso
        have hnone : lookupA [(start, (0 : Nat))] goal = none := by
          rw [lookupA_eq_none]
          intro pr hpr
          rw [List.mem_singleton] at hpr
          rw [hpr]
          exact hsg
        rw [hnone] at hg
        cases hg
      · intro pr hpr
        exact absurd hpr (List.not_mem_nil _)
      · intro pr hpr
        rw [List.mem_singleton] at hpr
        rw [hpr]
        exact Or.inl rfl
      · intro pr hpr
        exact absurd hpr (List.not_mem_nil _)
      · simp
    have hphi0 : aPhi ((walkable.length : Int).toNat
          * ((walkable.headD []).length : Int).toNat + 1)
        (⟨[(0, start)], [], [(start, 0)]⟩ : AStarState) < aStarFuel walkable := by
      have hR : ((walkable.length : Int)).toNat = walkable.length := by simp
      have hC2 : (((walkable.headD []).length : Int)).toNat
          = (walkable.headD []).length := by simp
      rw [hR, hC2]
      have h1 : aPhi (walkable.length * (walkable.headD []).length + 1)
          (⟨[(0, start)], [], [(start, 0)]⟩ : AStarState)
          = 1 + (walkable.length * (walkable.headD []).length)
            * (walkable.length * (walkable.headD []).length + 2) := rfl
      rw [h1]
      unfold aStarFuel
      nlinarith [Nat.zero_le (walkable.length * (walkable.headD []).length)]
    obtain ⟨ret, hret, hv, hmin⟩ := astarLoop_sound (aStarFuel walkable)
      ⟨[(0, start)], [], [(start, 0)]⟩ hinv0 hphi0 hreach
    refine ⟨ret, ?_, hv, hmin⟩
    show find_path walkable start goal = some ret
    unfold find_path
    rw [hdef2]
    exact hret

/-- C7 witness: on the spec's 5x5 fully-walkable grid from (0,0) to (4,4),
the hypotheses hold concretely (goal in-bounds and walkable; an explicit
length-8 staircase walk witnesses reachability), and the returned path has
length 8. -/
theorem find_path_shortest_witness :
    (∃ ret, find_path grid5 ((0 : Int), (0 : Int)) (4, 4) = some ret ∧
      validWalk grid5 ((grid5.headD []).length : Int) (grid5.length : Int)
        ((0 : Int), (0 : Int)) ret (4, 4) = true ∧
      ∀ W, validWalk grid5 ((grid5.headD []).length : Int) (grid5.length : Int)
        ((0 : Int), (0 : Int)) W (4, 4) = true → ret.length ≤ W.length) ∧
    (find_path grid5 ((0 : Int), (0 : Int)) (4, 4)).map List.length = some 8 := by
  constructor
  · exact find_path_shortest grid5 (0, 0) (4, 4) (by decide)
      ⟨[(1, 0), (2, 0), (3, 0), (4, 0), (4, 1), (4, 2), (4, 3), (4, 4)], by decide⟩
  · decide

end FoodFactory
